import Mathlib

/-!
# godiscord: a shallow embedding of `embeds.go`

The Discord embed builder (`NewEmbed`, `SetUser`, `SetAuthor`, `SetColor`,
`SetThumbnail`, `SetImage`, `SetFooter`, `SetTimestamp`, `AddField`) and the
delivery routine `SendToWebhook` are translated to pure Lean functions.

* Methods on `*Embed` become functions from the receiver to the receiver after
  the call, paired with the returned `error` (`none` is Go's `nil`).
* Go strings are Lean `String`s; the standard-library routines used by the
  source (`strings.Replace`, `strconv.ParseInt`, `strconv.Atoi`,
  `strconv.ParseFloat`, `http.Header.Get`, `json.Marshal`) are modelled after
  their documented behaviour on the character list of the string.
* `int64`/`int` values are `Int`s; range checks are explicit.
* The HTTP endpoint is a script: the list of results that successive
  `http.Post` calls produce.  `SendToWebhook` consumes it and records every
  `http.Post` and `time.Sleep` it performs.
-/

namespace godiscord

/-! ## Go values -/

/-- A Go slice value: `nil` is the nil slice, `mk xs` a non-nil slice holding `xs`. -/
inductive Slice (α : Type) where
  | nil : Slice α
  | mk (elems : List α) : Slice α
deriving DecidableEq, Repr

namespace Slice

/-- The elements of a slice, in order. -/
def toList {α : Type} : Slice α → List α
  | nil => []
  | mk xs => xs

/-- Go's `len(s)`. -/
def len {α : Type} (s : Slice α) : Nat := s.toList.length

/-- Go's `append(s, x)`: always a non-nil slice. -/
def append {α : Type} (s : Slice α) (x : α) : Slice α := mk (s.toList ++ [x])

/-- The assignment `s[0] = f(s[0])` on a slice with `len(s) >= 1`; a slice without
an element at index 0 is returned as it is (callers check the length first). -/
def modify0 {α : Type} (s : Slice α) (f : α → α) : Slice α :=
  match s with
  | nil => nil
  | mk [] => mk []
  | mk (x :: xs) => mk (f x :: xs)

end Slice

/-- A Go `error` value, identified by its message. -/
structure GoError where
  msg : String
deriving DecidableEq, Repr

/-! ## The data model (embeds.go, lines 13-66) -/

/-- Author represents the author of the embed. -/
structure Author where
  Name : String := ""
  URL : String := ""
  IconURL : String := ""
deriving DecidableEq, Repr

/-- Field represents a field in an embed. -/
structure Field where
  Name : String := ""
  Value : String := ""
  Inline : Bool := false
deriving DecidableEq, Repr

/-- Footer represents the footer of an embed. -/
structure Footer where
  Text : String := ""
  IconURL : String := ""
deriving DecidableEq, Repr

/-- Image represents the image of an embed. -/
structure Image where
  URL : String := ""
deriving DecidableEq, Repr

/-- EmbedElement is one element of the `Embeds` sequence.  The defaults are Go's zero values. -/
structure EmbedElement where
  Author : Author := {}
  Title : String := ""
  URL : String := ""
  Description : String := ""
  Timestamp : String := ""
  Color : Int := 0
  Fields : Slice Field := Slice.nil
  Thumbnail : Image := {}
  Image : Image := {}
  Footer : Footer := {}
deriving DecidableEq, Repr

/-- Embed is the Discord embed object.  The defaults are Go's zero values. -/
structure Embed where
  Username : String := ""
  AvatarURL : String := ""
  Content : String := ""
  Embeds : Slice EmbedElement := Slice.nil
deriving DecidableEq, Repr

/-- The result of a method that may stop with a run-time panic: either it returns,
leaving the receiver `e` and giving back `err`, or it panics. -/
inductive Call where
  | ret (e : Embed) (err : Option GoError) : Call
  | panicked (reason : String) : Call
deriving DecidableEq, Repr

/-! ## Standard-library routines used by the builder -/

namespace strings

/-- Replacement of a non-empty `old`: scan left to right; at each position where `old`
starts (and the budget `lim` is not used up) emit `new` and skip the rest of the
occurrence (`skip` counts the characters of it still to pass), else copy the character. -/
def replaceGo (old new : List Char) : Option Nat → Nat → List Char → List Char
  | _, _, [] => []
  | lim, skip + 1, _ :: cs => replaceGo old new lim skip cs
  | lim, 0, c :: cs =>
    if lim ≠ some 0 ∧ old.isPrefixOf (c :: cs) then
      new ++ replaceGo old new (lim.map (fun k => k - 1)) (old.length - 1) cs
    else c :: replaceGo old new lim 0 cs

/-- Replacement of the empty `old`: `new` is inserted before each character and at the
end, as long as the budget lasts. -/
def replaceEmpty (new : List Char) : Option Nat → List Char → List Char
  | lim, [] => if lim ≠ some 0 then new else []
  | lim, c :: cs =>
    if lim ≠ some 0 then new ++ c :: replaceEmpty new (lim.map (fun k => k - 1)) cs
    else c :: cs

/-- Go's `strings.Replace(s, old, new, n)`: a copy of `s` with the first `n`
non-overlapping instances of `old` replaced by `new`; no limit when `n < 0`. -/
def Replace (s old new : String) (n : Int) : String :=
  if old = new ∨ n = 0 then s
  else
    let lim : Option Nat := if n < 0 then none else some n.toNat
    if old.data = [] then String.mk (replaceEmpty new.data lim s.data)
    else String.mk (replaceGo old.data new.data lim 0 s.data)

end strings

namespace strconv

/-- The two kinds of `*strconv.NumError`: `ErrSyntax` and `ErrRange`. -/
inductive NumError where
  | ErrSyntax : NumError
  | ErrRange : NumError
deriving DecidableEq, Repr

/-- The value of one digit character: `0`-`9`, then letters of either case from 10 on. -/
def digitVal (c : Char) : Option Nat :=
  if 48 ≤ c.toNat ∧ c.toNat ≤ 57 then some (c.toNat - 48)
  else if 97 ≤ c.toNat ∧ c.toNat ≤ 122 then some (c.toNat - 97 + 10)
  else if 65 ≤ c.toNat ∧ c.toNat ≤ 90 then some (c.toNat - 65 + 10)
  else none

/-- The largest `uint64`. -/
def maxUint64 : Nat := 2 ^ 64 - 1

/-- The digit loop of `ParseUint` with an explicit base: `n` is the value read so far. -/
def parseUintLoop (base maxVal : Nat) : Nat → List Char → Nat × Option NumError
  | n, [] => (n, none)
  | n, c :: cs =>
    match digitVal c with
    | none => (0, some NumError.ErrSyntax)
    | some d =>
      if d ≥ base then (0, some NumError.ErrSyntax)
      else if n ≥ maxUint64 / base + 1 then (maxVal, some NumError.ErrRange)
      else if n * base + d > maxVal then (maxVal, some NumError.ErrRange)
      else parseUintLoop base maxVal (n * base + d) cs

/-- Go's `strconv.ParseUint(s, base, bitSize)` for an explicit base `2 <= base <= 36`
(no base prefix and no underscores are accepted then). -/
def ParseUint (s : List Char) (base bitSize : Nat) : Nat × Option NumError :=
  match s with
  | [] => (0, some NumError.ErrSyntax)
  | c :: cs => parseUintLoop base (2 ^ bitSize - 1) 0 (c :: cs)

/-- Go's `strconv.ParseInt(s, base, bitSize)` for an explicit base: an optional sign,
then `ParseUint`, then the range check against `2^(bitSize-1)`. -/
def ParseInt (s : String) (base bitSize : Nat) : Int × Option NumError :=
  match s.data with
  | [] => (0, some NumError.ErrSyntax)
  | c :: cs =>
    let neg : Bool := c = '-'
    let body : List Char := if c = '+' ∨ c = '-' then cs else c :: cs
    match ParseUint body base bitSize with
    | (_, some NumError.ErrSyntax) => (0, some NumError.ErrSyntax)
    | (un, _) =>
      let cutoff : Nat := 2 ^ (bitSize - 1)
      if !neg ∧ un ≥ cutoff then ((cutoff : Int) - 1, some NumError.ErrRange)
      else if neg ∧ un > cutoff then (-(cutoff : Int), some NumError.ErrRange)
      else (if neg then -(un : Int) else (un : Int), none)

/-- Go's `strconv.Atoi(s)` on a 64-bit platform: `ParseInt(s, 10, 0)` (the fast path for
short strings computes the same result). -/
def Atoi (s : String) : Int × Option NumError := ParseInt s 10 64

end strconv

/-! ## The builder (embeds.go, lines 68-155) -/

/-- NewEmbed creates a new embed object. -/
def NewEmbed (Title Description URL : String) : Embed :=
  let e : Embed := {}
  let emb : EmbedElement := { Title := Title, Description := Description, URL := URL }
  { e with Embeds := e.Embeds.append emb }

/-- SetUser sets the name and/or avatar URL. -/
def SetUser (e : Embed) (Username AvatarURL : String) : Embed :=
  { e with Username := Username, AvatarURL := AvatarURL }

/-- SetAuthor sets the author of the Embed. -/
def SetAuthor (e : Embed) (Name URL IconURL : String) : Embed :=
  if e.Embeds.len = 0 then
    let emb : EmbedElement := { Author := ⟨Name, URL, IconURL⟩ }
    { e with Embeds := e.Embeds.append emb }
  else
    { e with Embeds := e.Embeds.modify0 (fun emb => { emb with Author := ⟨Name, URL, IconURL⟩ }) }

/-- SetColor takes in a hex code and sets the color of the Embed.  The index
expression `e.Embeds[0]` is reached only after a successful parse; on an empty
sequence it is Go's index-out-of-range panic. -/
def SetColor (e : Embed) (color : String) : Call :=
  let color := strings.Replace color "0x" "" (-1)
  let color := strings.Replace color "0X" "" (-1)
  let color := strings.Replace color "#" "" (-1)
  match strconv.ParseInt color 16 64 with
  | (_, some _) => Call.ret e (some ⟨"invalid hex code passed"⟩)
  | (colorInt, none) =>
    if e.Embeds.len = 0 then Call.panicked "index out of range [0] with length 0"
    else Call.ret { e with Embeds := e.Embeds.modify0 (fun emb => { emb with Color := colorInt }) } none

/-- The error every guarded mutator returns on an empty `Embeds`. -/
def errNoEmbedElement : GoError :=
  ⟨"invalid Embed passed in, Embed.Embeds must have at least one EmbedElement"⟩

/-- SetThumbnail sets the thumbnail of the embed. -/
def SetThumbnail (e : Embed) (URL : String) : Embed × Option GoError :=
  if e.Embeds.len < 1 then (e, some errNoEmbedElement)
  else ({ e with Embeds := e.Embeds.modify0 (fun emb => { emb with Thumbnail := ⟨URL⟩ }) }, none)

/-- SetImage sets the image of the embed. -/
def SetImage (e : Embed) (URL : String) : Embed × Option GoError :=
  if e.Embeds.len < 1 then (e, some errNoEmbedElement)
  else ({ e with Embeds := e.Embeds.modify0 (fun emb => { emb with Image := ⟨URL⟩ }) }, none)

/-- SetFooter sets the footer of the embed. -/
def SetFooter (e : Embed) (Text IconURL : String) : Embed × Option GoError :=
  if e.Embeds.len < 1 then (e, some errNoEmbedElement)
  else ({ e with Embeds := e.Embeds.modify0 (fun emb => { emb with Footer := ⟨Text, IconURL⟩ }) }, none)

/-- SetTimestamp sets the timestamp of the embed; `now` is the value of
`time.Now().UTC().Format(time.RFC3339)` at the moment of the call. -/
def SetTimestamp (e : Embed) (now : String) : Embed × Option GoError :=
  if e.Embeds.len < 1 then (e, some errNoEmbedElement)
  else ({ e with Embeds := e.Embeds.modify0 (fun emb => { emb with Timestamp := now }) }, none)

/-- AddField adds a field to the Embed. -/
def AddField (e : Embed) (Name Value : String) ( Inline : Bool) : Embed × Option GoError :=
  if e.Embeds.len < 1 then (e, some errNoEmbedElement)
  else
    let field : Field := ⟨Name, Value, Inline⟩
    ({ e with Embeds := e.Embeds.modify0 (fun emb => { emb with Fields := emb.Fields.append field }) }, none)

/-! ## Standard-library routines used by the delivery routine -/

namespace strconv

/-- A `float64` value: `finite neg m k` is `(-1)^neg * m * 2^k`. -/
inductive Float64 where
  | finite (neg : Bool) (mant : Nat) (exp : Int) : Float64
  | inf (neg : Bool) : Float64
  | nan : Float64
deriving DecidableEq, Repr

/-- ASCII lower-casing of one character, as `c | 0x20` does on letters. -/
def lower (c : Char) : Char :=
  if 65 ≤ c.toNat ∧ c.toNat ≤ 90 then Char.ofNat (c.toNat + 32) else c

/-- The special forms of `ParseFloat`: `nan` without a sign, `inf` and `infinity` with an
optional sign, in any letter case. -/
def special (s : List Char) : Option Float64 :=
  let isInf (t : List Char) : Bool :=
    t.map lower = ['i', 'n', 'f'] || t.map lower = ['i', 'n', 'f', 'i', 'n', 'i', 't', 'y']
  match s with
  | [] => none
  | c :: cs =>
    if c = '+' then (if isInf cs then some (Float64.inf false) else none)
    else if c = '-' then (if isInf cs then some (Float64.inf true) else none)
    else if isInf (c :: cs) then some (Float64.inf false)
    else if (c :: cs).map lower = ['n', 'a', 'n'] then some Float64.nan
    else none

/-- The check `underscoreOK` after the optional sign and base prefix: `saw` is the last
character class seen (`0` a digit or base prefix, `1` an underscore, `2` anything else,
`3` the beginning). -/
def underscoreOKLoop (hex : Bool) : Nat → List Char → Bool
  | saw, [] => saw ≠ 1
  | saw, c :: cs =>
    if (48 ≤ c.toNat ∧ c.toNat ≤ 57) ∨ (hex ∧ 97 ≤ (lower c).toNat ∧ (lower c).toNat ≤ 102) then
      underscoreOKLoop hex 0 cs
    else if c = '_' then (if saw ≠ 0 then false else underscoreOKLoop hex 1 cs)
    else if saw = 1 then false
    else underscoreOKLoop hex 2 cs

/-- Go's `underscoreOK`: underscores only between digits or between a base prefix and a digit. -/
def underscoreOK (s : List Char) : Bool :=
  let s := match s with
    | c :: cs => if c = '-' ∨ c = '+' then cs else c :: cs
    | [] => []
  match s with
  | c0 :: c1 :: cs =>
    if c0 = '0' ∧ (lower c1 = 'b' ∨ lower c1 = 'o' ∨ lower c1 = 'x') then
      underscoreOKLoop (lower c1 = 'x') 0 cs
    else underscoreOKLoop false 3 (c0 :: c1 :: cs)
  | cs => underscoreOKLoop false 3 cs

/-- State of the mantissa loop of `readFloat`: the digits read so far as a number, and how
many of them came after the point. -/
structure Mantissa where
  sawdot : Bool := false
  sawdigits : Bool := false
  underscores : Bool := false
  mant : Nat := 0
  frac : Nat := 0
deriving DecidableEq, Repr

/-- The mantissa loop: underscores, one point, digits of the base; returns the state and
the unread rest. -/
def readMantissa (hex : Bool) : Mantissa → List Char → Mantissa × List Char
  | m, [] => (m, [])
  | m, c :: cs =>
    if c = '_' then readMantissa hex { m with underscores := true } cs
    else if c = '.' then
      (if m.sawdot then (m, c :: cs) else readMantissa hex { m with sawdot := true } cs)
    else if 48 ≤ c.toNat ∧ c.toNat ≤ 57 then
      readMantissa hex { m with sawdigits := true,
                                mant := m.mant * (if hex then 16 else 10) + (c.toNat - 48),
                                frac := if m.sawdot then m.frac + 1 else m.frac } cs
    else if hex ∧ 97 ≤ (lower c).toNat ∧ (lower c).toNat ≤ 102 then
      readMantissa hex { m with sawdigits := true,
                                mant := m.mant * 16 + ((lower c).toNat - 97 + 10),
                                frac := if m.sawdot then m.frac + 1 else m.frac } cs
    else (m, c :: cs)

/-- The digits of the exponent; the value stops growing at 10000, as in the source.
Returns the value, whether an underscore was seen, and the unread rest. -/
def readExpDigits : Nat → Bool → List Char → Nat × Bool × List Char
  | e, u, [] => (e, u, [])
  | e, u, c :: cs =>
    if c = '_' then readExpDigits e true cs
    else if 48 ≤ c.toNat ∧ c.toNat ≤ 57 then
      readExpDigits (if e < 10000 then e * 10 + (c.toNat - 48) else e) u cs
    else (e, u, c :: cs)

/-- The optional exponent part after the mantissa (`e` for decimal, `p` for hexadecimal, the
latter mandatory).  Returns the signed exponent and the underscore flag when the rest of the
string is a well-formed exponent, or is empty where that is allowed. -/
def readExponent (hex : Bool) (rest : List Char) : Option (Int × Bool) :=
  match rest with
  | [] => if hex then none else some (0, false)
  | c :: cs =>
    if lower c = (if hex then 'p' else 'e') then
      let (esign, ds) : Int × List Char := match cs with
        | '+' :: t => (1, t)
        | '-' :: t => (-1, t)
        | t => (1, t)
      match ds with
      | [] => none
      | d :: _ =>
        if 48 ≤ d.toNat ∧ d.toNat ≤ 57 then
          match readExpDigits 0 false ds with
          | (e, u, []) => some (esign * (e : Int), u)
          | _ => none
        else none
    else none

/-- Integer binary logarithm, `fuel` bounding the number of halvings. -/
def ilog2 : Nat → Nat → Nat
  | 0, _ => 0
  | fuel + 1, n => if n < 2 then 0 else ilog2 fuel (n / 2) + 1

/-- The `float32` nearest to the positive rational `N / D` (ties to even), as a
significand and a binary exponent; `none` when it overflows `float32`. -/
def roundFloat32 (N D : Nat) : Option (Nat × Int) :=
  if N = 0 then some (0, 0)
  else
    let c : Int := (ilog2 N N : Int) - (ilog2 D D : Int)
    let e2 : Int := if N * 2 ^ (-c).toNat ≥ D * 2 ^ c.toNat then c else c - 1
    let k : Int := max (e2 - 23) (-149)
    let num : Nat := N * 2 ^ (-k).toNat
    let den : Nat := D * 2 ^ k.toNat
    let q0 : Nat := num / den
    let r : Nat := num % den
    let q : Nat := if 2 * r > den ∨ (2 * r = den ∧ q0 % 2 = 1) then q0 + 1 else q0
    if q * 2 ^ k.toNat ≥ 2 ^ 128 then none else some (q, k)

/-- The result for the positive rational `N / D` with sign `neg`: the nearest `float32`,
or `(±Inf, ErrRange)` on overflow. -/
def roundResult (neg : Bool) (N D : Nat) : Float64 × Option NumError :=
  match roundFloat32 N D with
  | none => (Float64.inf neg, some NumError.ErrRange)
  | some qk => (Float64.finite neg qk.1 qk.2, none)

/-- What `ParseFloat` returns for a malformed string. -/
def syntaxError : Float64 × Option NumError :=
  (Float64.finite false 0 0, some NumError.ErrSyntax)

/-- The number after sign and base prefix: mantissa, exponent, the underscore check on the
whole string `s`, then rounding. -/
def convertFloat (neg hex : Bool) (s digits : List Char) : Float64 × Option NumError :=
  let mr := readMantissa hex {} digits
  if !mr.1.sawdigits then syntaxError
  else
    match readExponent hex mr.2 with
    | none => syntaxError
    | some eu =>
      if (mr.1.underscores ∨ eu.2) ∧ !underscoreOK s then syntaxError
      else
        let base : Nat := if hex then 2 else 10
        let exp : Int := if hex then eu.1 - 4 * (mr.1.frac : Int) else eu.1 - (mr.1.frac : Int)
        roundResult neg (mr.1.mant * base ^ exp.toNat) (base ^ (-exp).toNat)

/-- The number after the sign: a `0x` prefix followed by at least one more character
selects the hexadecimal form. -/
def readNumber (neg : Bool) (s body : List Char) : Float64 × Option NumError :=
  match body with
  | c0 :: c1 :: c2 :: t =>
    if c0 = '0' ∧ lower c1 = 'x' then convertFloat neg true s (c2 :: t)
    else convertFloat neg false s body
  | t => convertFloat neg false s t

/-- Go's `strconv.ParseFloat(s, 32)`: the special forms, else a decimal or hexadecimal
floating-point literal rounded to the nearest `float32`.  A malformed string gives
`(0, ErrSyntax)`, an overflow gives `(±Inf, ErrRange)`. -/
def ParseFloat32 (s : String) : Float64 × Option NumError :=
  match special s.data with
  | some f => (f, none)
  | none =>
    match s.data with
    | '+' :: t => readNumber false s.data t
    | '-' :: t => readNumber true s.data t
    | t => readNumber false s.data t

end strconv

namespace time

/-- The argument handed to `time.Sleep`: a `time.Duration`, i.e. an `int64` count of
nanoseconds; `unspecified` stands for the implementation-dependent result of converting
a floating-point value that no `int64` represents. -/
inductive Duration where
  | ns (n : Int) : Duration
  | unspecified : Duration
deriving DecidableEq, Repr

/-- The conversion `time.Duration(f)` of a `float64`: the fraction is discarded
(truncation towards zero). -/
def Duration.ofFloat : strconv.Float64 → Duration
  | strconv.Float64.finite neg m k =>
    let t : Nat := if k ≥ 0 then m * 2 ^ k.toNat else m / 2 ^ (-k).toNat
    let v : Int := if neg then -(t : Int) else (t : Int)
    if -(2 ^ 63 : Int) ≤ v ∧ v < (2 ^ 63 : Int) then Duration.ns v else Duration.unspecified
  | _ => Duration.unspecified

/-- One second, `time.Second`, in nanoseconds. -/
def Second : Int := 1000000000

end time

namespace textproto

/-- The bytes allowed in a header field name (RFC 7230 token characters). -/
def validHeaderFieldByte (c : Char) : Bool :=
  let n := c.toNat
  (48 ≤ n ∧ n ≤ 57) ∨ (65 ≤ n ∧ n ≤ 90) ∨ (97 ≤ n ∧ n ≤ 122) ∨
    n ∈ [33, 35, 36, 37, 38, 39, 42, 43, 45, 46, 94, 95, 96, 124, 126]

/-- Upper-case the first letter and every letter after a hyphen, lower-case the others. -/
def canonicalize : Bool → List Char → List Char
  | _, [] => []
  | upper, c :: cs =>
    let c1 : Char :=
      if upper ∧ 97 ≤ c.toNat ∧ c.toNat ≤ 122 then Char.ofNat (c.toNat - 32)
      else if !upper ∧ 65 ≤ c.toNat ∧ c.toNat ≤ 90 then Char.ofNat (c.toNat + 32)
      else c
    c1 :: canonicalize (c1 = '-') cs

/-- Go's `textproto.CanonicalMIMEHeaderKey`: a key holding a byte that is not allowed in
a field name is returned unchanged. -/
def CanonicalMIMEHeaderKey (s : String) : String :=
  if s.data.all validHeaderFieldByte then String.mk (canonicalize true s.data) else s

end textproto

namespace http

/-- Go's `http.Header`, a map from canonical keys to their values, as an association list. -/
abbrev Header := List (String × List String)

/-- Go's `Header.Get`: the first value stored under the canonical form of `key`, or `""`. -/
def Header.Get (h : Header) (key : String) : String :=
  match h.lookup (textproto.CanonicalMIMEHeaderKey key) with
  | some (v :: _) => v
  | _ => ""

/-- The parts of `http.Response` that the source reads. -/
structure Response where
  Status : String
  StatusCode : Int
  Header : Header
deriving DecidableEq, Repr

end http

namespace json

/-- One lower-case hexadecimal digit. -/
def hexDigit (n : Nat) : Char :=
  if n < 10 then Char.ofNat (48 + n) else Char.ofNat (87 + n)

/-- The escape `\u00XX` or `\uXXXX` of a code point below `0x10000`. -/
def escapeU (n : Nat) : List Char :=
  ['\\', 'u', hexDigit (n / 4096 % 16), hexDigit (n / 256 % 16), hexDigit (n / 16 % 16),
    hexDigit (n % 16)]

/-- The encoding of one character inside a JSON string, with HTML escaping on, as
`json.Marshal` writes it. -/
def encodeChar (c : Char) : List Char :=
  if c = '"' then ['\\', '"']
  else if c = '\\' then ['\\', '\\']
  else if c.toNat = 8 then ['\\', 'b']
  else if c.toNat = 12 then ['\\', 'f']
  else if c.toNat = 10 then ['\\', 'n']
  else if c.toNat = 13 then ['\\', 'r']
  else if c.toNat = 9 then ['\\', 't']
  else if c.toNat < 32 ∨ c = '<' ∨ c = '>' ∨ c = '&' ∨ c.toNat = 8232 ∨ c.toNat = 8233 then
    escapeU c.toNat
  else [c]

/-- A Go string as a JSON string literal. -/
def encodeString (s : String) : String :=
  String.mk (['"'] ++ (s.data.map encodeChar).flatten ++ ['"'])

/-- A struct as a JSON object: the members that are present, in declaration order. -/
def object (members : List (Option String)) : String :=
  "\x7b" ++ ",".intercalate (members.filterMap id) ++ "\x7d"

/-- A member that is always written. -/
def member (key value : String) : Option String :=
  some (encodeString key ++ ":" ++ value)

/-- A string member tagged `omitempty`. -/
def memberOmitEmpty (key value : String) : Option String :=
  if value = "" then none else member key (encodeString value)

/-- Encoding of `Author`. -/
def encodeAuthor (a : Author) : String :=
  object [member "name" (encodeString a.Name), member "url" (encodeString a.URL),
    member "icon_url" (encodeString a.IconURL)]

/-- Encoding of `Field`. -/
def encodeField (f : Field) : String :=
  object [member "name" (encodeString f.Name), member "value" (encodeString f.Value),
    if f.Inline then member "inline" "true" else none]

/-- Encoding of `Footer`. -/
def encodeFooter (f : Footer) : String :=
  object [member "text" (encodeString f.Text), memberOmitEmpty "icon_url" f.IconURL]

/-- Encoding of `Image`. -/
def encodeImage (i : Image) : String :=
  object [member "url" (encodeString i.URL)]

/-- A slice as JSON: `null` for the nil slice, else an array. -/
def encodeSlice {α : Type} (enc : α → String) : Slice α → String
  | Slice.nil => "null"
  | Slice.mk xs => "[" ++ ",".intercalate (xs.map enc) ++ "]"

/-- Encoding of `EmbedElement`: struct-typed members are written even when zero, since
`omitempty` never omits a struct. -/
def encodeEmbedElement (x : EmbedElement) : String :=
  object [member "author" (encodeAuthor x.Author),
    memberOmitEmpty "title" x.Title,
    memberOmitEmpty "url" x.URL,
    memberOmitEmpty "description" x.Description,
    memberOmitEmpty "timestamp" x.Timestamp,
    if x.Color = 0 then none else member "color" (toString x.Color),
    if x.Fields.len = 0 then none else member "fields" (encodeSlice encodeField x.Fields),
    member "thumbnail" (encodeImage x.Thumbnail),
    member "image" (encodeImage x.Image),
    member "footer" (encodeFooter x.Footer)]

/-- Encoding of `Embed`. -/
def encodeEmbed (e : Embed) : String :=
  object [memberOmitEmpty "username" e.Username,
    memberOmitEmpty "avatar_url" e.AvatarURL,
    memberOmitEmpty "content" e.Content,
    member "embeds" (encodeSlice encodeEmbedElement e.Embeds)]

/-- Go's `json.Marshal(e)` for `e *Embed`: the encoding and a nil error (no value of these
types is unsupported by the encoder). -/
def Marshal (e : Embed) : String × Option GoError := (encodeEmbed e, none)

end json

/-! ## The delivery routine (embeds.go, lines 157-184) -/

/-- What one `http.Post` call gives back: a response, or a transport error. -/
inductive PostResult where
  | response (resp : http.Response) : PostResult
  | failure (postErr : GoError) : PostResult
deriving DecidableEq, Repr

/-- The externally visible actions of `SendToWebhook`. -/
inductive Effect where
  | Post (url contentType body : String) : Effect
  | Sleep (d : time.Duration) : Effect
deriving DecidableEq, Repr

/-- How a run ends: the function returned `err`, or the script of results ended while
the last `http.Post` was still unanswered. -/
inductive Outcome where
  | returned (err : Option GoError) : Outcome
  | awaiting : Outcome
deriving DecidableEq, Repr

/-- A run of `SendToWebhook`: its actions in order, and how it ended. -/
structure Run where
  trace : List Effect
  outcome : Outcome
deriving DecidableEq, Repr

/-- The `for` loop of `SendToWebhook` (lines 165-183): one iteration per result in the
script. -/
def sendLoop (Webhook embed : String) : List PostResult → Run
  | [] => ⟨[Effect.Post Webhook "application/json" embed], Outcome.awaiting⟩
  | PostResult.failure postErr :: _ =>
    ⟨[Effect.Post Webhook "application/json" embed], Outcome.returned (some postErr)⟩
  | PostResult.response resp :: rest =>
    if resp.StatusCode ≤ 204 ∧ resp.StatusCode ≥ 200 then
      ⟨[Effect.Post Webhook "application/json" embed], Outcome.returned none⟩
    else if resp.StatusCode = 429 then
      let (rateLimit, err) := strconv.Atoi (resp.Header.Get "x-ratelimit-remaining")
      let pause : List Effect :=
        if err = none ∧ rateLimit ≤ 1 then
          let (sleepTime, _) := strconv.ParseFloat32 (resp.Header.Get "X-RateLimit-Reset-After")
          [Effect.Sleep (time.Duration.ofFloat sleepTime)]
        else []
      let next := sendLoop Webhook embed rest
      ⟨Effect.Post Webhook "application/json" embed :: (pause ++ next.trace), next.outcome⟩
    else
      ⟨[Effect.Post Webhook "application/json" embed],
        Outcome.returned (some ⟨"error posting webhook: " ++ resp.Status⟩)⟩

/-- SendToWebhook sends the Embed to a webhook; `script` lists the results of the
successive `http.Post` calls. -/
def SendToWebhook (e : Embed) (Webhook : String) (script : List PostResult) : Run :=
  match json.Marshal e with
  | (_, some marshalErr) => ⟨[], Outcome.returned (some marshalErr)⟩
  | (embed, none) => sendLoop Webhook embed script

/-! ## Observations on payloads, and the claims' own notions -/

/-- The content block at index 0, if there is one. -/
def Embed.first (e : Embed) : Option EmbedElement := e.Embeds.toList.head?

/-- Calling `AddField` once per triple, in order: the receiver after the last call, and the
error each call returned. -/
def addFields (e : Embed) : List (String × String × Bool) → Embed × List (Option GoError)
  | [] => (e, [])
  | t :: ts =>
    let r := AddField e t.1 t.2.1 t.2.2
    let r2 := addFields r.1 ts
    (r2.1, r.2 :: r2.2)

/-- The `Field` a triple stands for. -/
def Field.ofTriple (t : String × String × Bool) : Field := ⟨t.1, t.2.1, t.2.2⟩

/-- A hexadecimal digit: `0`-`9`, `a`-`f`, `A`-`F`. -/
def isHexDigit (c : Char) : Bool :=
  (48 ≤ c.toNat ∧ c.toNat ≤ 57) ∨ (97 ≤ c.toNat ∧ c.toNat ≤ 102) ∨ (65 ≤ c.toNat ∧ c.toNat ≤ 70)

/-- The value of a hexadecimal digit. -/
def hexDigitValue (c : Char) : Nat :=
  if 48 ≤ c.toNat ∧ c.toNat ≤ 57 then c.toNat - 48
  else if 97 ≤ c.toNat ∧ c.toNat ≤ 102 then c.toNat - 87
  else c.toNat - 55

/-- The number a string of hexadecimal digits denotes in positional notation, the first
character being the most significant digit. -/
def hexNat (ds : List Char) : Nat := Nat.ofDigits 16 (ds.reverse.map hexDigitValue)

/-- In the claims' words, what it is for a string to parse as a base-16 integer: an
optional sign, then one or more hexadecimal digits, denoting a value that an `int64`
holds.  Gives that value. -/
def hexInt64 (t : List Char) : Option Int :=
  let neg : Bool := t.head? = some '-'
  let ds : List Char := if t.head? = some '+' ∨ t.head? = some '-' then t.tail else t
  if ds ≠ [] ∧ ds.all isHexDigit = true then
    let v : Int := if neg then -(hexNat ds : Int) else (hexNat ds : Int)
    if -(2 ^ 63 : Int) ≤ v ∧ v < (2 ^ 63 : Int) then some v else none
  else none

/-- The string `SetColor` hands to `strconv.ParseInt` (lines 96-98): every `0x`, then
every `0X`, then every `#` taken out of `color`, wherever it stands. -/
def stripColor (color : String) : String :=
  strings.Replace (strings.Replace (strings.Replace color "0x" "" (-1)) "0X" "" (-1)) "#" "" (-1)

/-- In the words of claim C10: `s` with at most one leading `0x`, `0X` or `#` removed,
that is `s` itself and `s` without such a leading mark when it has one. -/
def leadingRemainders (s : String) : List String :=
  s :: ["0x", "0X", "#"].filterMap
    (fun p => if p.data.isPrefixOf s.data then some (String.mk (s.data.drop p.data.length)) else none)

/-- In the words of claim C10: whether some remainder of `s` parses as a base-16 integer. -/
def leadingAccepts (s : String) : Bool :=
  (leadingRemainders s).any (fun t => (hexInt64 t.data).isSome)

/-- The receiver of `SetColor` after a successful call that stored `colorInt`. -/
def Embed.withColor (e : Embed) (colorInt : Int) : Embed :=
  { e with Embeds := e.Embeds.modify0 (fun emb => { emb with Color := colorInt }) }

/-- One call of a mutator of the builder, with its arguments (`SetTimestamp` with the
time it reads). -/
inductive Op where
  | SetUser (Username AvatarURL : String) : Op
  | SetAuthor (Name URL IconURL : String) : Op
  | SetColor (color : String) : Op
  | SetThumbnail (URL : String) : Op
  | SetImage (URL : String) : Op
  | SetFooter (Text IconURL : String) : Op
  | SetTimestamp (now : String) : Op
  | AddField (Name Value : String) ( Inline : Bool) : Op
deriving DecidableEq, Repr

/-- The call `op` on the receiver `e`. -/
def Op.call (e : Embed) : Op → Call
  | Op.SetUser u a => Call.ret (godiscord.SetUser e u a) none
  | Op.SetAuthor n l i => Call.ret (godiscord.SetAuthor e n l i) none
  | Op.SetColor c => godiscord.SetColor e c
  | Op.SetThumbnail u => Call.ret (godiscord.SetThumbnail e u).1 (godiscord.SetThumbnail e u).2
  | Op.SetImage u => Call.ret (godiscord.SetImage e u).1 (godiscord.SetImage e u).2
  | Op.SetFooter t i => Call.ret (godiscord.SetFooter e t i).1 (godiscord.SetFooter e t i).2
  | Op.SetTimestamp now =>
    Call.ret (godiscord.SetTimestamp e now).1 (godiscord.SetTimestamp e now).2
  | Op.AddField n v i => Call.ret (godiscord.AddField e n v i).1 (godiscord.AddField e n v i).2

/-- A sequence of calls on `e`, each on the receiver the previous one left, whether it
returned an error or not: the final receiver, or `none` when a call panicked. -/
def calls (e : Embed) : List Op → Option Embed
  | [] => some e
  | op :: ops =>
    match op.call e with
    | Call.ret e1 _ => calls e1 ops
    | Call.panicked _ => none

/-! ## Observations on runs -/

/-- Whether an action is an `http.Post`. -/
def Effect.isPost : Effect → Bool
  | Effect.Post _ _ _ => true
  | Effect.Sleep _ => false

/-- Whether an action is a `time.Sleep`. -/
def Effect.isSleep : Effect → Bool
  | Effect.Post _ _ _ => false
  | Effect.Sleep _ => true

/-- The number of `http.Post` calls of a run. -/
def Run.posts (r : Run) : Nat := r.trace.countP Effect.isPost

/-- The number of `time.Sleep` calls of a run. -/
def Run.sleeps (r : Run) : Nat := r.trace.countP Effect.isSleep

/-! ## Lemmas on the standard-library routines -/

theorem roundResult_err (neg : Bool) (N D : Nat) :
    (strconv.roundResult neg N D).2 ≠ some strconv.NumError.ErrSyntax := by
  unfold strconv.roundResult
  split <;> simp

theorem convertFloat_cases (neg hex : Bool) (s digits : List Char) :
    strconv.convertFloat neg hex s digits = strconv.syntaxError ∨
    (strconv.convertFloat neg hex s digits).2 ≠ some strconv.NumError.ErrSyntax := by
  unfold strconv.convertFloat
  generalize strconv.readMantissa hex {} digits = mr
  dsimp only
  by_cases h1 : (!mr.1.sawdigits) = true
  · rw [if_pos h1]; exact Or.inl rfl
  · rw [if_neg h1]
    cases strconv.readExponent hex mr.2 with
    | none => exact Or.inl rfl
    | some eu =>
      dsimp only
      by_cases h2 : (mr.1.underscores = true ∨ eu.2 = true) ∧ (!strconv.underscoreOK s) = true
      · rw [if_pos h2]; exact Or.inl rfl
      · rw [if_neg h2]; exact Or.inr (roundResult_err _ _ _)

theorem readNumber_cases (neg : Bool) (s body : List Char) :
    strconv.readNumber neg s body = strconv.syntaxError ∨
    (strconv.readNumber neg s body).2 ≠ some strconv.NumError.ErrSyntax := by
  unfold strconv.readNumber
  split
  · split_ifs <;> exact convertFloat_cases _ _ _ _
  · exact convertFloat_cases _ _ _ _

/-- Whenever `ParseFloat` reports a syntax error, the value it returns is zero. -/
theorem ParseFloat32_malformed_zero (s : String)
    (h : (strconv.ParseFloat32 s).2 = some strconv.NumError.ErrSyntax) :
    (strconv.ParseFloat32 s).1 = strconv.Float64.finite false 0 0 := by
  have key : strconv.ParseFloat32 s = strconv.syntaxError ∨
      (strconv.ParseFloat32 s).2 ≠ some strconv.NumError.ErrSyntax := by
    unfold strconv.ParseFloat32
    split
    · exact Or.inr (by simp)
    · split <;> exact readNumber_cases _ _ _
  rcases key with h1 | h1
  · rw [h1]; rfl
  · exact absurd h h1

/-- A header that is not in the map reads as the empty string. -/
theorem Header_Get_absent (h : http.Header) (key : String)
    (habs : h.lookup (textproto.CanonicalMIMEHeaderKey key) = none) :
    http.Header.Get h key = "" := by
  unfold http.Header.Get
  rw [habs]

theorem replaceGo_absent (old new : List Char) (c : Char) (hc : c ∈ old) (s : List Char)
    (hs : c ∉ s) : strings.replaceGo old new none 0 s = s := by
  induction s with
  | nil => rfl
  | cons x xs ih =>
    have hp : old.isPrefixOf (x :: xs) = false := by
      by_contra hcon
      rw [Bool.not_eq_false, List.isPrefixOf_iff_prefix] at hcon
      exact hs (hcon.subset hc)
    have hxs : c ∉ xs := fun h => hs (List.mem_cons_of_mem _ h)
    rw [strings.replaceGo]
    simp only [hp, Bool.false_eq_true, and_false, if_false, ih hxs]

theorem Replace_absent (s old new : String) (c : Char) (hne : old ≠ new) (hc : c ∈ old.data)
    (hs : c ∉ s.data) : strings.Replace s old new (-1) = s := by
  have hold : old.data ≠ [] := fun h => by rw [h] at hc; exact absurd hc (List.not_mem_nil _)
  unfold strings.Replace
  simp only [hne, false_or, hold, if_false]
  rw [if_neg (by decide), if_pos (by decide), replaceGo_absent _ _ c hc _ hs]

theorem isHexDigit_ne (c : Char) (h : isHexDigit c = true) : c ≠ 'x' ∧ c ≠ 'X' ∧ c ≠ '#' := by
  refine ⟨?_, ?_, ?_⟩ <;> rintro rfl <;> revert h <;> decide

theorem digitVal_hex (c : Char) (h : isHexDigit c = true) :
    strconv.digitVal c = some (hexDigitValue c) ∧ hexDigitValue c < 16 := by
  unfold isHexDigit at h
  unfold strconv.digitVal hexDigitValue
  simp only [decide_eq_true_eq, Bool.decide_or, Bool.or_eq_true, Bool.decide_and,
    Bool.and_eq_true] at h
  split_ifs <;> first
    | omega
    | exact ⟨rfl, by omega⟩
    | exact ⟨congrArg some (by omega), by omega⟩

theorem digitVal_not_hex (c : Char) (h : isHexDigit c = false) :
    strconv.digitVal c = none ∨ ∃ d, strconv.digitVal c = some d ∧ d ≥ 16 := by
  unfold isHexDigit at h
  unfold strconv.digitVal
  simp only [Bool.decide_or, Bool.decide_and, Bool.or_eq_false_iff, Bool.and_eq_false_iff,
    decide_eq_false_iff_not] at h
  split_ifs
  · omega
  · exact Or.inr ⟨_, rfl, by omega⟩
  · exact Or.inr ⟨_, rfl, by omega⟩
  · exact Or.inl rfl

theorem hexNat_cons (c : Char) (cs : List Char) :
    hexNat (c :: cs) = hexDigitValue c * 16 ^ cs.length + hexNat cs := by
  unfold hexNat
  rw [List.reverse_cons, List.map_append, Nat.ofDigits_append]
  simp [Nat.ofDigits_singleton, Nat.mul_comm, Nat.add_comm]

theorem parseUintLoop_hex (ds : List Char) (n : Nat) (hn : n ≤ 2 ^ 64 - 1) :
    (ds.all isHexDigit = true ∧ n * 16 ^ ds.length + hexNat ds ≤ 2 ^ 64 - 1 →
      strconv.parseUintLoop 16 (2 ^ 64 - 1) n ds = (n * 16 ^ ds.length + hexNat ds, none)) ∧
    (¬ (ds.all isHexDigit = true ∧ n * 16 ^ ds.length + hexNat ds ≤ 2 ^ 64 - 1) →
      (strconv.parseUintLoop 16 (2 ^ 64 - 1) n ds).2 = some strconv.NumError.ErrSyntax ∨
      strconv.parseUintLoop 16 (2 ^ 64 - 1) n ds = (2 ^ 64 - 1, some strconv.NumError.ErrRange)) := by
  induction ds generalizing n with
  | nil =>
    refine ⟨fun _ => ?_, fun h => ?_⟩
    · simp [strconv.parseUintLoop, hexNat]
    · exact absurd ⟨rfl, by simpa [hexNat] using hn⟩ h
  | cons c cs ih =>
    have hP : 1 ≤ 16 ^ cs.length := Nat.one_le_pow _ _ (by norm_num)
    have hv : n * 16 ^ (c :: cs).length + hexNat (c :: cs)
        = (n * 16 + hexDigitValue c) * 16 ^ cs.length + hexNat cs := by
      rw [hexNat_cons, List.length_cons, pow_succ]; ring
    have hcut : strconv.maxUint64 / 16 + 1 = 2 ^ 60 := by decide
    cases hc : isHexDigit c with
    | false =>
      have hall : ¬ ((c :: cs).all isHexDigit = true) := by simp [hc]
      refine ⟨fun h => absurd h.1 hall, fun _ => Or.inl ?_⟩
      rcases digitVal_not_hex c hc with h0 | ⟨d, h0, hd⟩
      · simp [strconv.parseUintLoop, h0]
      · simp [strconv.parseUintLoop, h0, hd]
    | true =>
      obtain ⟨h0, hd⟩ := digitVal_hex c hc
      have hall : (c :: cs).all isHexDigit = cs.all isHexDigit := by simp [hc]
      have hlo1 : n * 16 + hexDigitValue c ≤ (n * 16 + hexDigitValue c) * 16 ^ cs.length :=
        Nat.le_mul_of_pos_right _ hP
      rw [hall, hv]
      by_cases h1 : n ≥ 2 ^ 60
      · have hloop : strconv.parseUintLoop 16 (2 ^ 64 - 1) n (c :: cs)
            = (2 ^ 64 - 1, some strconv.NumError.ErrRange) := by
          rw [strconv.parseUintLoop]
          simp only [h0, hcut]
          rw [if_neg (by omega), if_pos h1]
        refine ⟨fun h => ?_, fun _ => Or.inr hloop⟩
        exfalso
        have := h.2
        omega
      · by_cases h2 : n * 16 + hexDigitValue c > 2 ^ 64 - 1
        · have hloop : strconv.parseUintLoop 16 (2 ^ 64 - 1) n (c :: cs)
              = (2 ^ 64 - 1, some strconv.NumError.ErrRange) := by
            rw [strconv.parseUintLoop]
            simp only [h0, hcut]
            rw [if_neg (by omega), if_neg h1, if_pos h2]
          refine ⟨fun h => ?_, fun _ => Or.inr hloop⟩
          exfalso
          have := h.2
          omega
        · have hloop : strconv.parseUintLoop 16 (2 ^ 64 - 1) n (c :: cs)
              = strconv.parseUintLoop 16 (2 ^ 64 - 1) (n * 16 + hexDigitValue c) cs := by
            rw [strconv.parseUintLoop]
            simp only [h0, hcut]
            rw [if_neg (by omega), if_neg h1, if_neg h2]
          rw [hloop]
          exact ih (n * 16 + hexDigitValue c) (by omega)

/-- `ParseUint` in base 16 on the digits after the sign, followed by the range check of
`ParseInt`, against the positional value of the digits. -/
theorem ParseInt_body_hex (neg : Bool) (ds : List Char) (r : Int × Option strconv.NumError)
    (hr : r = (match strconv.ParseUint ds 16 64 with
      | (_, some strconv.NumError.ErrSyntax) => ((0 : Int), some strconv.NumError.ErrSyntax)
      | (un, _) =>
        if !neg ∧ un ≥ 2 ^ (64 - 1) then
          (((2 ^ (64 - 1) : Nat) : Int) - 1, some strconv.NumError.ErrRange)
        else if neg ∧ un > 2 ^ (64 - 1) then
          (-((2 ^ (64 - 1) : Nat) : Int), some strconv.NumError.ErrRange)
        else (if neg then -(un : Int) else (un : Int), none))) :
    ((ds ≠ [] ∧ ds.all isHexDigit = true) ∧
        -(2 ^ 63 : Int) ≤ (if neg then -(hexNat ds : Int) else (hexNat ds : Int)) ∧
        (if neg then -(hexNat ds : Int) else (hexNat ds : Int)) < (2 ^ 63 : Int) →
      r = ((if neg then -(hexNat ds : Int) else (hexNat ds : Int)), none)) ∧
    (¬ ((ds ≠ [] ∧ ds.all isHexDigit = true) ∧
        -(2 ^ 63 : Int) ≤ (if neg then -(hexNat ds : Int) else (hexNat ds : Int)) ∧
        (if neg then -(hexNat ds : Int) else (hexNat ds : Int)) < (2 ^ 63 : Int)) →
      r.2 ≠ none) := by
  cases ds with
  | nil =>
    subst hr
    exact ⟨fun h => absurd rfl h.1.1, fun _ => by simp [strconv.ParseUint]⟩
  | cons c cs =>
    have hloop := parseUintLoop_hex (c :: cs) 0 (by norm_num)
    simp only [Nat.zero_mul, Nat.zero_add] at hloop
    have hU : strconv.ParseUint (c :: cs) 16 64
        = strconv.parseUintLoop 16 (2 ^ 64 - 1) 0 (c :: cs) := rfl
    rw [hU] at hr
    by_cases hok : (c :: cs).all isHexDigit = true ∧ hexNat (c :: cs) ≤ 2 ^ 64 - 1
    · rw [hloop.1 hok] at hr
      subst hr
      cases neg
      · simp only [Bool.false_eq_true, if_false, false_and, Bool.not_false, true_and]
        by_cases hlt : hexNat (c :: cs) ≥ 2 ^ (64 - 1)
        · rw [if_pos hlt]
          exact ⟨fun h => by exfalso; have := h.2.2; omega, fun _ => by simp⟩
        · rw [if_neg hlt]
          exact ⟨fun _ => rfl, fun h => by exfalso; exact h ⟨⟨by simp, hok.1⟩, by omega, by omega⟩⟩
      · simp only [if_true, true_and, Bool.not_true, Bool.false_eq_true, false_and, if_false]
        by_cases hlt : hexNat (c :: cs) > 2 ^ (64 - 1)
        · rw [if_pos hlt]
          exact ⟨fun h => by exfalso; have := h.2.1; omega, fun _ => by simp⟩
        · rw [if_neg hlt]
          exact ⟨fun _ => rfl, fun h => by exfalso; exact h ⟨⟨by simp, hok.1⟩, by omega, by omega⟩⟩
    · have hcond : ¬ (((c :: cs) ≠ [] ∧ (c :: cs).all isHexDigit = true) ∧
          -(2 ^ 63 : Int) ≤ (if neg then -(hexNat (c :: cs) : Int) else (hexNat (c :: cs) : Int)) ∧
          (if neg then -(hexNat (c :: cs) : Int) else (hexNat (c :: cs) : Int)) < (2 ^ 63 : Int)) := by
        rintro ⟨⟨_, hall⟩, h1, h2⟩
        apply hok
        refine ⟨hall, ?_⟩
        cases neg <;> simp only [if_true, if_false, Bool.false_eq_true] at h1 h2 <;> omega
      refine ⟨fun h => absurd h hcond, fun _ => ?_⟩
      rcases hloop.2 hok with h1 | h1
      · rcases hl : strconv.parseUintLoop 16 (2 ^ 64 - 1) 0 (c :: cs) with ⟨un, err⟩
        rw [hl] at h1 hr
        simp only at h1
        subst h1 hr
        simp
      · rw [h1] at hr
        subst hr
        cases neg <;> simp


/-! ## Lemmas on the builder -/

theorem Slice.len_pos_of_head {α : Type} (s : Slice α) (x : α) (h : s.toList.head? = some x) :
    ¬ s.len < 1 := by
  cases s with
  | nil => simp [Slice.toList] at h
  | mk xs =>
    cases xs with
    | nil => simp [Slice.toList] at h
    | cons y ys => simp [Slice.len, Slice.toList]

theorem Slice.head_modify0 {α : Type} (s : Slice α) (f : α → α) :
    (s.modify0 f).toList.head? = s.toList.head?.map f := by
  cases s with
  | nil => rfl
  | mk xs => cases xs <;> rfl

/-- On a payload with a block at index 0, `AddField` returns nil and rewrites that block. -/
theorem AddField_first (e : Embed) (b : EmbedElement) (n v : String) (i : Bool)
    (hb : e.first = some b) :
    (AddField e n v i).2 = none ∧
    (AddField e n v i).1.first = some { b with Fields := b.Fields.append ⟨n, v, i⟩ } := by
  have hlen : ¬ e.Embeds.len < 1 := Slice.len_pos_of_head _ _ hb
  unfold AddField
  rw [if_neg hlen]
  refine ⟨rfl, ?_⟩
  simp only [Embed.first] at hb ⊢
  rw [Slice.head_modify0, hb]
  rfl

/-- `AddField` once per triple, in order, on a payload with a block at index 0: every call
returns nil, and the block's fields are the old ones followed by the triples. -/
theorem addFields_first (ts : List (String × String × Bool)) (e : Embed) (b : EmbedElement)
    (hb : e.first = some b) :
    (addFields e ts).2 = List.replicate ts.length none ∧
    ∃ b1 : EmbedElement, (addFields e ts).1.first = some b1 ∧
      b1.Fields.toList = b.Fields.toList ++ ts.map Field.ofTriple := by
  induction ts generalizing e b with
  | nil => exact ⟨rfl, b, hb, by simp⟩
  | cons t ts ih =>
    obtain ⟨herr, hfirst⟩ := AddField_first e b t.1 t.2.1 t.2.2 hb
    obtain ⟨h1, b1, h2, h3⟩ := ih _ _ hfirst
    refine ⟨?_, b1, h2, ?_⟩
    · simp only [addFields, herr, h1, List.length_cons, List.replicate_succ]
    · rw [h3]
      simp [Slice.append, Slice.toList, Field.ofTriple]

/-- The claims' notion unfolded on a non-empty string. -/
theorem hexInt64_cons (c : Char) (cs : List Char) (neg : Bool) (ds : List Char)
    (hneg : neg = decide (c = '-')) (hds : ds = if c = '+' ∨ c = '-' then cs else c :: cs) :
    hexInt64 (c :: cs) =
      (if (ds ≠ [] ∧ ds.all isHexDigit = true) ∧
          -(2 ^ 63 : Int) ≤ (if neg = true then -(hexNat ds : Int) else (hexNat ds : Int)) ∧
          (if neg = true then -(hexNat ds : Int) else (hexNat ds : Int)) < (2 ^ 63 : Int)
       then some (if neg = true then -(hexNat ds : Int) else (hexNat ds : Int))
       else none) := by
  subst hneg hds
  unfold hexInt64
  simp only [List.head?_cons, Option.some.injEq, List.tail_cons, ite_and]

/-- `strconv.ParseInt(s, 16, 64)` succeeds exactly on the strings that denote a base-16
integer in `int64`, and then returns the value denoted. -/
theorem ParseInt_hex (s : String) :
    (∀ v : Int, hexInt64 s.data = some v → strconv.ParseInt s 16 64 = (v, none)) ∧
    (hexInt64 s.data = none → (strconv.ParseInt s 16 64).2 ≠ none) := by
  rcases hs : s.data with _ | ⟨c, cs⟩
  · refine ⟨fun v h => by simp [hexInt64] at h, fun _ => ?_⟩
    unfold strconv.ParseInt
    rw [hs]
    simp
  · have hP : strconv.ParseInt s 16 64 =
        (match strconv.ParseUint (if c = '+' ∨ c = '-' then cs else c :: cs) 16 64 with
          | (_, some strconv.NumError.ErrSyntax) => ((0 : Int), some strconv.NumError.ErrSyntax)
          | (un, _) =>
            if !(decide (c = '-')) ∧ un ≥ 2 ^ (64 - 1) then
              (((2 ^ (64 - 1) : Nat) : Int) - 1, some strconv.NumError.ErrRange)
            else if decide (c = '-') ∧ un > 2 ^ (64 - 1) then
              (-((2 ^ (64 - 1) : Nat) : Int), some strconv.NumError.ErrRange)
            else (if decide (c = '-') then -(un : Int) else (un : Int), none)) := by
      unfold strconv.ParseInt
      rw [hs]
    obtain ⟨h1, h2⟩ := ParseInt_body_hex (decide (c = '-'))
      (if c = '+' ∨ c = '-' then cs else c :: cs) _ hP
    rw [hexInt64_cons c cs (decide (c = '-')) (if c = '+' ∨ c = '-' then cs else c :: cs) rfl rfl]
    refine ⟨fun v hv => ?_, fun hn => ?_⟩
    · by_cases hc : ((if c = '+' ∨ c = '-' then cs else c :: cs) ≠ [] ∧
            (if c = '+' ∨ c = '-' then cs else c :: cs).all isHexDigit = true) ∧
          -(2 ^ 63 : Int) ≤ (if decide (c = '-') = true then
              -(hexNat (if c = '+' ∨ c = '-' then cs else c :: cs) : Int)
            else (hexNat (if c = '+' ∨ c = '-' then cs else c :: cs) : Int)) ∧
          (if decide (c = '-') = true then
              -(hexNat (if c = '+' ∨ c = '-' then cs else c :: cs) : Int)
            else (hexNat (if c = '+' ∨ c = '-' then cs else c :: cs) : Int)) < (2 ^ 63 : Int)
      · rw [if_pos hc] at hv
        rw [h1 hc, Option.some.inj hv]
      · rw [if_neg hc] at hv
        exact absurd hv (by simp)
    · by_cases hc : ((if c = '+' ∨ c = '-' then cs else c :: cs) ≠ [] ∧
            (if c = '+' ∨ c = '-' then cs else c :: cs).all isHexDigit = true) ∧
          -(2 ^ 63 : Int) ≤ (if decide (c = '-') = true then
              -(hexNat (if c = '+' ∨ c = '-' then cs else c :: cs) : Int)
            else (hexNat (if c = '+' ∨ c = '-' then cs else c :: cs) : Int)) ∧
          (if decide (c = '-') = true then
              -(hexNat (if c = '+' ∨ c = '-' then cs else c :: cs) : Int)
            else (hexNat (if c = '+' ∨ c = '-' then cs else c :: cs) : Int)) < (2 ^ 63 : Int)
      · rw [if_pos hc] at hn
        exact absurd hn (by simp)
      · exact h2 hc

/-- `SetColor` in terms of the string it parses. -/
theorem SetColor_strip (e : Embed) (s : String) :
    SetColor e s = (match strconv.ParseInt (stripColor s) 16 64 with
      | (_, some _) => Call.ret e (some ⟨"invalid hex code passed"⟩)
      | (colorInt, none) =>
        if e.Embeds.len = 0 then Call.panicked "index out of range [0] with length 0"
        else Call.ret (e.withColor colorInt) none) := rfl

/-- On a payload with a block at index 0, `SetColor` succeeds with colour `v` when the
stripped string denotes `v`, and returns its error, leaving the receiver as it was, when
the stripped string denotes nothing. -/
theorem SetColor_first (e : Embed) (b : EmbedElement) (hb : e.first = some b) (s : String) :
    (∀ v : Int, hexInt64 (stripColor s).data = some v →
      SetColor e s = Call.ret (e.withColor v) none) ∧
    (hexInt64 (stripColor s).data = none →
      SetColor e s = Call.ret e (some ⟨"invalid hex code passed"⟩)) := by
  have hlen : ¬ e.Embeds.len = 0 := fun h => Slice.len_pos_of_head _ _ hb (by omega)
  obtain ⟨h1, h2⟩ := ParseInt_hex (stripColor s)
  rw [SetColor_strip]
  refine ⟨fun v hv => ?_, fun hn => ?_⟩
  · rw [h1 v hv]
    simp only [hlen, if_false]
  · have h3 := h2 hn
    rcases hp : strconv.ParseInt (stripColor s) 16 64 with ⟨w, err⟩
    rw [hp] at h3
    cases err with
    | none => exact absurd rfl h3
    | some _ => rfl

theorem withColor_first (e : Embed) (b : EmbedElement) (hb : e.first = some b) (v : Int) :
    (e.withColor v).first = some { b with Color := v } := by
  simp only [Embed.first, Embed.withColor] at hb ⊢
  rw [Slice.head_modify0, hb]
  rfl

theorem replaceGo_skip (old new : List Char) (lim : Option Nat) (pre t : List Char) :
    strings.replaceGo old new lim pre.length (pre ++ t) = strings.replaceGo old new lim 0 t := by
  induction pre with
  | nil => rfl
  | cons x xs ih => rw [List.length_cons, List.cons_append, strings.replaceGo, ih]

/-- An occurrence of `old` at the very start is taken out and the scan goes on after it. -/
theorem replaceGo_leading (c0 : Char) (rest t : List Char) :
    strings.replaceGo (c0 :: rest) [] none 0 ((c0 :: rest) ++ t)
      = strings.replaceGo (c0 :: rest) [] none 0 t := by
  have hp : (c0 :: rest).isPrefixOf (c0 :: (rest ++ t)) = true := by
    rw [List.isPrefixOf_iff_prefix]
    exact List.prefix_append (c0 :: rest) t
  rw [List.cons_append, strings.replaceGo]
  simp only [hp, ne_eq, reduceCtorEq, not_false_eq_true, and_self, if_true, List.nil_append,
    Option.map_none', List.length_cons, Nat.add_sub_cancel]
  exact replaceGo_skip _ _ _ rest t

/-- Removing `p` from `p ++ h`, where `h` lacks one of the characters of `p`, leaves `h`. -/
theorem Replace_leading (p h : String) (c : Char) (hne : p ≠ "") (hc : c ∈ p.data)
    (hs : c ∉ h.data) : strings.Replace (p ++ h) p "" (-1) = h := by
  have hold : p.data ≠ [] := fun h0 => by rw [h0] at hc; exact absurd hc (List.not_mem_nil _)
  obtain ⟨c0, rest, hp⟩ := List.exists_cons_of_ne_nil hold
  unfold strings.Replace
  simp only [hne, false_or, hold, if_false]
  rw [if_neg (by decide), if_pos (by decide), String.data_append, hp, replaceGo_leading,
    ← hp, replaceGo_absent _ _ c hc _ hs]

/-- What `SetColor` parses when handed a string free of `x`, `X` and `#`, bare or behind
one leading mark: that string. -/
theorem stripColor_marks (h : String) (hx : 'x' ∉ h.data) (hX : 'X' ∉ h.data)
    (hs : '#' ∉ h.data) :
    stripColor h = h ∧ stripColor ("#" ++ h) = h ∧ stripColor ("0x" ++ h) = h ∧
    stripColor ("0X" ++ h) = h := by
  have e1 : strings.Replace h "0x" "" (-1) = h := Replace_absent h "0x" "" 'x' (by decide) (by decide) hx
  have e2 : strings.Replace h "0X" "" (-1) = h := Replace_absent h "0X" "" 'X' (by decide) (by decide) hX
  have e3 : strings.Replace h "#" "" (-1) = h := Replace_absent h "#" "" '#' (by decide) (by decide) hs
  have mem : ∀ (c a : Char) (p : String), p.data = [a] → c ≠ a → c ∉ h.data →
      c ∉ (p ++ h).data := by
    intro c a p hp hca hch
    rw [String.data_append, hp]
    simp [hca, hch]
  have mem2 : ∀ (c a b : Char) (p : String), p.data = [a, b] → c ≠ a → c ≠ b → c ∉ h.data →
      c ∉ (p ++ h).data := by
    intro c a b p hp hca hcb hch
    rw [String.data_append, hp]
    simp [hca, hcb, hch]
  refine ⟨?_, ?_, ?_, ?_⟩
  · unfold stripColor
    rw [e1, e2, e3]
  · unfold stripColor
    rw [Replace_absent ("#" ++ h) "0x" "" 'x' (by decide) (by decide)
        (mem 'x' '#' "#" rfl (by decide) hx),
      Replace_absent ("#" ++ h) "0X" "" 'X' (by decide) (by decide)
        (mem 'X' '#' "#" rfl (by decide) hX),
      Replace_leading "#" h '#' (by decide) (by decide) hs]
  · unfold stripColor
    rw [Replace_leading "0x" h 'x' (by decide) (by decide) hx, e2, e3]
  · unfold stripColor
    rw [Replace_absent ("0X" ++ h) "0x" "" 'x' (by decide) (by decide)
        (mem2 'x' '0' 'X' "0X" rfl (by decide) (by decide) hx),
      Replace_leading "0X" h 'X' (by decide) (by decide) hX, e3]

theorem Slice.len_modify0 {α : Type} (s : Slice α) (f : α → α) :
    (s.modify0 f).len = s.len := by
  cases s with
  | nil => rfl
  | mk xs => cases xs <;> rfl

theorem Slice.eq_mk_of_toList {α : Type} (s : Slice α) (x : α) (xs : List α)
    (h : s.toList = x :: xs) : s = Slice.mk (x :: xs) := by
  cases s with
  | nil => simp [Slice.toList] at h
  | mk ys => simp only [Slice.toList] at h; rw [h]

theorem Slice.len_of_toList {α : Type} (s : Slice α) (x : α) (xs : List α)
    (h : s.toList = x :: xs) : ¬ s.len < 1 ∧ ¬ s.len = 0 := by
  simp [Slice.len, h]

/-- On a receiver whose stripped colour string does not parse, `SetColor` returns its error
before it touches `e.Embeds`, whatever `e` is. -/
theorem SetColor_rejects (e : Embed) (s : String) (h : hexInt64 (stripColor s).data = none) :
    SetColor e s = Call.ret e (some ⟨"invalid hex code passed"⟩) := by
  have h3 := (ParseInt_hex (stripColor s)).2 h
  rw [SetColor_strip]
  rcases hp : strconv.ParseInt (stripColor s) 16 64 with ⟨w, err⟩
  rw [hp] at h3
  cases err with
  | none => exact absurd rfl h3
  | some _ => rfl

/-- On a receiver with no content block, `SetColor` with a string that parses reaches
`e.Embeds[0]` and panics. -/
theorem SetColor_panics (e : Embed) (s : String) (v : Int) (hlen : e.Embeds.len = 0)
    (h : hexInt64 (stripColor s).data = some v) :
    SetColor e s = Call.panicked "index out of range [0] with length 0" := by
  rw [SetColor_strip, (ParseInt_hex (stripColor s)).1 v h]
  simp only [hlen, if_true]

/-- How `SetColor` ends, by cases on what the stripped string denotes and on the length
of `e.Embeds`. -/
theorem SetColor_cases (e : Embed) (s : String) :
    SetColor e s = Call.ret e (some ⟨"invalid hex code passed"⟩) ∨
    (e.Embeds.len = 0 ∧ SetColor e s = Call.panicked "index out of range [0] with length 0") ∨
    (e.Embeds.len ≠ 0 ∧ ∃ v : Int, SetColor e s = Call.ret (e.withColor v) none) := by
  cases h : hexInt64 (stripColor s).data with
  | none => exact Or.inl (SetColor_rejects e s h)
  | some v =>
    by_cases hlen : e.Embeds.len = 0
    · exact Or.inr (Or.inl ⟨hlen, SetColor_panics e s v hlen h⟩)
    · refine Or.inr (Or.inr ⟨hlen, v, ?_⟩)
      rw [SetColor_strip, (ParseInt_hex (stripColor s)).1 v h]
      simp only [hlen, if_false]

theorem withColor_len (e : Embed) (v : Int) : (e.withColor v).Embeds.len = e.Embeds.len := by
  simp only [Embed.withColor]
  exact Slice.len_modify0 _ _

/-- On a payload with exactly one content block every mutator returns, and leaves exactly
one content block. -/
theorem call_one_block (e : Embed) (op : Op) (h : e.Embeds.len = 1) :
    ∃ (e1 : Embed) (err : Option GoError), op.call e = Call.ret e1 err ∧ e1.Embeds.len = 1 := by
  have h1 : ¬ e.Embeds.len < 1 := by omega
  have h0 : ¬ e.Embeds.len = 0 := by omega
  cases op with
  | SetUser u a => exact ⟨_, _, rfl, h⟩
  | SetAuthor n l i =>
    refine ⟨_, _, rfl, ?_⟩
    rw [SetAuthor, if_neg h0]
    exact (Slice.len_modify0 _ _).trans h
  | SetColor c =>
    rcases SetColor_cases e c with hc | ⟨hl, _⟩ | ⟨_, v, hc⟩
    · exact ⟨_, _, hc, h⟩
    · exact absurd hl h0
    · exact ⟨_, _, hc, (withColor_len e v).trans h⟩
  | SetThumbnail u =>
    refine ⟨_, _, rfl, ?_⟩
    rw [SetThumbnail, if_neg h1]
    exact (Slice.len_modify0 _ _).trans h
  | SetImage u =>
    refine ⟨_, _, rfl, ?_⟩
    rw [SetImage, if_neg h1]
    exact (Slice.len_modify0 _ _).trans h
  | SetFooter t i =>
    refine ⟨_, _, rfl, ?_⟩
    rw [SetFooter, if_neg h1]
    exact (Slice.len_modify0 _ _).trans h
  | SetTimestamp now =>
    refine ⟨_, _, rfl, ?_⟩
    rw [SetTimestamp, if_neg h1]
    exact (Slice.len_modify0 _ _).trans h
  | AddField n v i =>
    refine ⟨_, _, rfl, ?_⟩
    rw [AddField, if_neg h1]
    exact (Slice.len_modify0 _ _).trans h

/-- A sequence of calls started on a payload with exactly one content block never panics
and ends on a payload with exactly one content block. -/
theorem calls_one_block (ops : List Op) (e : Embed) (h : e.Embeds.len = 1) :
    ∃ e1 : Embed, calls e ops = some e1 ∧ e1.Embeds.len = 1 := by
  induction ops generalizing e with
  | nil => exact ⟨e, rfl, h⟩
  | cons op ops ih =>
    obtain ⟨e1, err, hc, h1⟩ := call_one_block e op h
    obtain ⟨e2, h2, h3⟩ := ih e1 h1
    refine ⟨e2, ?_, h3⟩
    rw [calls, hc]
    exact h2

/-- What `SetColor` accepts on a payload with a content block at index 0: the strings
that, with every "0x", then every "0X", then every "#" taken out wherever it stands, denote
a base-16 integer (an optional sign and one or more hexadecimal digits, within int64); the
stored colour is then the value of what is left, and otherwise the call returns its error
and leaves the payload as it was.  When s is a remainder free of the characters x, X and #,
bare or behind one leading "0x", "0X" or "#", what is left is that remainder. -/
theorem SetColor_accepts_iff (e : Embed) (b : EmbedElement) (hb : e.first = some b)
    (s : String) :
    ((∃ e1 : Embed, SetColor e s = Call.ret e1 none)
      ↔ ∃ v : Int, hexInt64 (stripColor s).data = some v) ∧
    (∀ v : Int, hexInt64 (stripColor s).data = some v →
      SetColor e s = Call.ret (e.withColor v) none ∧
      (e.withColor v).first = some { b with Color := v }) ∧
    (hexInt64 (stripColor s).data = none →
      SetColor e s = Call.ret e (some ⟨"invalid hex code passed"⟩)) ∧
    (∀ t : String, 'x' ∉ t.data → 'X' ∉ t.data → '#' ∉ t.data →
      (s = t ∨ s = "0x" ++ t ∨ s = "0X" ++ t ∨ s = "#" ++ t) → stripColor s = t) := by
  obtain ⟨h1, h2⟩ := SetColor_first e b hb s
  refine ⟨⟨?_, ?_⟩, fun v hv => ⟨h1 v hv, withColor_first e b hb v⟩, h2, ?_⟩
  · rintro ⟨e1, he1⟩
    cases hx : hexInt64 (stripColor s).data with
    | none =>
      rw [h2 hx] at he1
      simp at he1
    | some v => exact ⟨v, rfl⟩
  · rintro ⟨v, hv⟩
    exact ⟨_, h1 v hv⟩
  · intro t hx hX hs hcase
    obtain ⟨s0, s1, s2, s3⟩ := stripColor_marks t hx hX hs
    rcases hcase with rfl | rfl | rfl | rfl
    · exact s0
    · exact s2
    · exact s3
    · exact s1

/-! ## Lemmas on the delivery routine -/

theorem Marshal_err (e : Embed) : (json.Marshal e).2 = none := rfl

theorem SendToWebhook_eq (e : Embed) (Webhook : String) (script : List PostResult) :
    SendToWebhook e Webhook script = sendLoop Webhook (json.Marshal e).1 script := rfl

theorem sendLoop_failure (W b : String) (err : GoError) (rest : List PostResult) :
    sendLoop W b (PostResult.failure err :: rest)
      = ⟨[Effect.Post W "application/json" b], Outcome.returned (some err)⟩ := rfl

theorem sendLoop_ok (W b : String) (resp : http.Response) (rest : List PostResult)
    (h : 200 ≤ resp.StatusCode ∧ resp.StatusCode ≤ 204) :
    sendLoop W b (PostResult.response resp :: rest)
      = ⟨[Effect.Post W "application/json" b], Outcome.returned none⟩ := by
  simp [sendLoop, h.1, h.2]

theorem sendLoop_other (W b : String) (resp : http.Response) (rest : List PostResult)
    (h : ¬ (200 ≤ resp.StatusCode ∧ resp.StatusCode ≤ 204)) (h429 : resp.StatusCode ≠ 429) :
    sendLoop W b (PostResult.response resp :: rest)
      = ⟨[Effect.Post W "application/json" b],
          Outcome.returned (some ⟨"error posting webhook: " ++ resp.Status⟩)⟩ := by
  have h2 : ¬ (resp.StatusCode ≤ 204 ∧ 200 ≤ resp.StatusCode) := fun hh => h ⟨hh.2, hh.1⟩
  simp only [sendLoop, ge_iff_le, h2, h429, if_false]

/-- The iteration on a 429 response, unfolded. -/
theorem sendLoop_429_eq (W b : String) (resp : http.Response) (rest : List PostResult)
    (h429 : resp.StatusCode = 429) :
    sendLoop W b (PostResult.response resp :: rest)
      = ⟨Effect.Post W "application/json" b ::
          ((if (strconv.Atoi (resp.Header.Get "x-ratelimit-remaining")).2 = none ∧
                (strconv.Atoi (resp.Header.Get "x-ratelimit-remaining")).1 ≤ 1 then
              [Effect.Sleep (time.Duration.ofFloat
                (strconv.ParseFloat32 (resp.Header.Get "X-RateLimit-Reset-After")).1)]
            else []) ++ (sendLoop W b rest).trace),
          (sendLoop W b rest).outcome⟩ := by
  have h2 : ¬ (resp.StatusCode ≤ 204 ∧ resp.StatusCode ≥ 200) := by omega
  rw [sendLoop, if_neg h2, if_pos h429]

/-- After a 429 the loop goes round again: the outcome is the one of the remaining script,
and the trace is this iteration's `Post`, at most one `Sleep`, then the remaining trace. -/
theorem sendLoop_429 (W b : String) (resp : http.Response) (rest : List PostResult)
    (h429 : resp.StatusCode = 429) :
    (sendLoop W b (PostResult.response resp :: rest)).outcome = (sendLoop W b rest).outcome ∧
    ∃ pause : List Effect, pause.length ≤ 1 ∧ (∀ x ∈ pause, x.isSleep = true) ∧
      (sendLoop W b (PostResult.response resp :: rest)).trace
        = Effect.Post W "application/json" b :: (pause ++ (sendLoop W b rest).trace) := by
  rw [sendLoop_429_eq W b resp rest h429]
  refine ⟨rfl, _, ?_, ?_, rfl⟩
  · split_ifs <;> simp
  · split_ifs <;> simp [Effect.isSleep]

theorem sendLoop_429_posts (W b : String) (resp : http.Response) (rest : List PostResult)
    (h429 : resp.StatusCode = 429) :
    (sendLoop W b (PostResult.response resp :: rest)).posts = (sendLoop W b rest).posts + 1 := by
  obtain ⟨_, pause, _, hs, ht⟩ := sendLoop_429 W b resp rest h429
  have hp : pause.countP Effect.isPost = 0 := by
    rw [List.countP_eq_zero]
    intro x hx
    have := hs x hx
    cases x <;> simp_all [Effect.isPost, Effect.isSleep]
  simp only [Run.posts, ht, List.countP_cons, List.countP_append, hp, Effect.isPost]
  simp

/-- A prefix of 429 responses changes neither the outcome nor what the rest of the script
does; it adds one `Post` per response. -/
theorem sendLoop_429_prefix (W b : String) (rs : List http.Response) (tail : List PostResult)
    (h429 : ∀ x ∈ rs, x.StatusCode = 429) :
    (sendLoop W b (rs.map PostResult.response ++ tail)).outcome = (sendLoop W b tail).outcome ∧
    (sendLoop W b (rs.map PostResult.response ++ tail)).posts
      = rs.length + (sendLoop W b tail).posts ∧
    ∃ pre : List Effect,
      (sendLoop W b (rs.map PostResult.response ++ tail)).trace = pre ++ (sendLoop W b tail).trace := by
  induction rs with
  | nil => exact ⟨rfl, by simp, [], rfl⟩
  | cons r rs ih =>
    have hr : r.StatusCode = 429 := h429 r (List.mem_cons_self _ _)
    obtain ⟨ho, hp, pre, ht⟩ := ih (fun x hx => h429 x (List.mem_cons_of_mem _ hx))
    obtain ⟨ho1, pause, _, _, ht1⟩ := sendLoop_429 W b r (rs.map PostResult.response ++ tail) hr
    refine ⟨?_, ?_, ?_⟩
    · simpa [ho] using ho1
    · have := sendLoop_429_posts W b r (rs.map PostResult.response ++ tail) hr
      simp only [List.map_cons, List.cons_append, this, hp, List.length_cons]
      omega
    · exact ⟨Effect.Post W "application/json" b :: (pause ++ pre), by
        simp only [List.map_cons, List.cons_append, ht1, ht, List.append_assoc]⟩

/-- What follows a transport failure in the script is never looked at. -/
theorem sendLoop_failure_rest (W b : String) (rs : List http.Response) (err : GoError)
    (rest : List PostResult) (h429 : ∀ x ∈ rs, x.StatusCode = 429) :
    sendLoop W b (rs.map PostResult.response ++ PostResult.failure err :: rest)
      = sendLoop W b (rs.map PostResult.response ++ [PostResult.failure err]) := by
  induction rs with
  | nil => rfl
  | cons r rs ih =>
    have hr : r.StatusCode = 429 := h429 r (List.mem_cons_self _ _)
    have ih1 := ih (fun x hx => h429 x (List.mem_cons_of_mem _ hx))
    simp only [List.map_cons, List.cons_append]
    rw [sendLoop_429_eq W b r _ hr, sendLoop_429_eq W b r _ hr, ih1]

/-- A terminal event (a transport failure, or a response that is not a 429) ends the run
with one `Post`; the outcome is read off the event. -/
theorem sendLoop_terminal (W b : String) (r : PostResult) (rest : List PostResult)
    (hr : ∀ resp, r = PostResult.response resp → resp.StatusCode ≠ 429) :
    (sendLoop W b (r :: rest)).trace = [Effect.Post W "application/json" b] ∧
    (sendLoop W b (r :: rest)).outcome =
      (match r with
       | PostResult.failure postErr => Outcome.returned (some postErr)
       | PostResult.response resp =>
         if 200 ≤ resp.StatusCode ∧ resp.StatusCode ≤ 204 then Outcome.returned none
         else Outcome.returned (some ⟨"error posting webhook: " ++ resp.Status⟩)) := by
  cases r with
  | failure err => exact ⟨rfl, rfl⟩
  | response resp =>
    have h429 := hr resp rfl
    by_cases h : 200 ≤ resp.StatusCode ∧ resp.StatusCode ≤ 204
    · rw [sendLoop_ok W b resp rest h]; simp [h]
    · rw [sendLoop_other W b resp rest h h429]; simp [h]

/-- Every action of the loop is a `Post` of the one body to the one URL, or a `Sleep`; the
first is a `Post`. -/
theorem sendLoop_actions (W b : String) (script : List PostResult) :
    (sendLoop W b script).trace.head? = some (Effect.Post W "application/json" b) ∧
    ∀ x ∈ (sendLoop W b script).trace,
      x = Effect.Post W "application/json" b ∨ x.isSleep = true := by
  induction script with
  | nil => exact ⟨rfl, by simp [sendLoop]⟩
  | cons r rest ih =>
    cases r with
    | failure err => exact ⟨rfl, by simp [sendLoop]⟩
    | response resp =>
      by_cases h2 : 200 ≤ resp.StatusCode ∧ resp.StatusCode ≤ 204
      · rw [sendLoop_ok W b resp rest h2]
        exact ⟨rfl, by simp⟩
      · by_cases h429 : resp.StatusCode = 429
        · obtain ⟨_, pause, _, hs, ht⟩ := sendLoop_429 W b resp rest h429
          rw [ht]
          refine ⟨rfl, ?_⟩
          intro x hx
          rcases List.mem_cons.mp hx with hx | hx
          · exact Or.inl hx
          · rcases List.mem_append.mp hx with hx | hx
            · exact Or.inr (hs x hx)
            · exact ih.2 x hx
        · rw [sendLoop_other W b resp rest h2 h429]
          exact ⟨rfl, by simp⟩

/-! ## Lemmas on the encoder -/

theorem embeds_member_only (V : String) :
    "\x7b" ++ ("\"embeds\"" ++ ":" ++ V) ++ "\x7d"
      = "\x7b" ++ "" ++ "\"embeds\":" ++ V ++ "\x7d" := by
  apply String.ext
  simp only [String.data_append, List.append_assoc]
  rfl

theorem embeds_member_last (A V : String) :
    "\x7b" ++ (A ++ "," ++ ("\"embeds\"" ++ ":" ++ V)) ++ "\x7d"
      = "\x7b" ++ (A ++ ",") ++ "\"embeds\":" ++ V ++ "\x7d" := by
  apply String.ext
  simp only [String.data_append, List.append_assoc]
  rfl

/-- The encoding of an `Embed` is an object whose last member is `"embeds"`, with the
encoding of the slice as its value, whatever members come before. -/
theorem encodeEmbed_shape (e : Embed) :
    ∃ pre : String, json.encodeEmbed e
      = "\x7b" ++ pre ++ "\"embeds\":" ++ json.encodeSlice json.encodeEmbedElement e.Embeds
        ++ "\x7d" := by
  unfold json.encodeEmbed json.object json.memberOmitEmpty json.member
  have hk : json.encodeString "embeds" = "\"embeds\"" := by decide
  rw [hk]
  by_cases h1 : e.Username = "" <;> by_cases h2 : e.AvatarURL = "" <;>
    by_cases h3 : e.Content = "" <;>
    simp only [h1, h2, h3, if_true, if_false, List.filterMap_cons, id, List.filterMap_nil,
      String.intercalate, String.intercalate.go] <;>
    first
    | exact ⟨_, embeds_member_only _⟩
    | exact ⟨_, embeds_member_last _ _⟩

/-! ## The claims -/

/-- C1: if the first response has a status code between 200 and 204, SendToWebhook returns
no error and its whole activity is one POST; and when the first response is not a 429,
SendToWebhook returns no error only if the status code is between 200 and 204. -/
theorem C1_success_iff_2xx (e : Embed) (Webhook : String) (resp : http.Response)
    (rest : List PostResult) :
    (200 ≤ resp.StatusCode ∧ resp.StatusCode ≤ 204 →
      (SendToWebhook e Webhook (PostResult.response resp :: rest)).outcome
          = Outcome.returned none ∧
      (SendToWebhook e Webhook (PostResult.response resp :: rest)).trace
          = [Effect.Post Webhook "application/json" (json.Marshal e).1] ∧
      (SendToWebhook e Webhook (PostResult.response resp :: rest)).posts = 1) ∧
    (resp.StatusCode ≠ 429 →
      (SendToWebhook e Webhook (PostResult.response resp :: rest)).outcome
          = Outcome.returned none →
      200 ≤ resp.StatusCode ∧ resp.StatusCode ≤ 204) := by
  rw [SendToWebhook_eq]
  constructor
  · intro h
    rw [sendLoop_ok _ _ resp rest h]
    exact ⟨rfl, rfl, rfl⟩
  · intro h429 hout
    by_contra h
    rw [sendLoop_other _ _ resp rest h h429] at hout
    simp at hout

/-- C1 at an endpoint that answers 204 to the first POST. -/
theorem C1_success_iff_2xx_witness :
    (SendToWebhook (NewEmbed "T" "D" "U") "https://example.test/hook"
        [PostResult.response ⟨"204 No Content", 204, []⟩]).outcome = Outcome.returned none ∧
    (SendToWebhook (NewEmbed "T" "D" "U") "https://example.test/hook"
        [PostResult.response ⟨"204 No Content", 204, []⟩]).trace
      = [Effect.Post "https://example.test/hook" "application/json"
          (json.Marshal (NewEmbed "T" "D" "U")).1] ∧
    (SendToWebhook (NewEmbed "T" "D" "U") "https://example.test/hook"
        [PostResult.response ⟨"204 No Content", 204, []⟩]).posts = 1 :=
  (C1_success_iff_2xx (NewEmbed "T" "D" "U") "https://example.test/hook"
    ⟨"204 No Content", 204, []⟩ []).1 (by decide)

/-- C2: after any number k of 429 responses, whatever their headers, a terminal event r
(a transport failure or a response that is not a 429) ends the run: k+1 POSTs have been
issued, and the call returns what it returns when r is the first event, namely the
transport error, or nil for 200..204, or the error naming r's status text.  No k makes
the call give up, and the 429s leave no mark on the returned value. -/
theorem C2_retries_until_terminal (e : Embed) (Webhook : String) (rs : List http.Response)
    (r : PostResult) (rest : List PostResult)
    (h429 : ∀ x ∈ rs, x.StatusCode = 429)
    (hr : ∀ resp, r = PostResult.response resp → resp.StatusCode ≠ 429) :
    (SendToWebhook e Webhook (rs.map PostResult.response ++ r :: rest)).posts = rs.length + 1 ∧
    (SendToWebhook e Webhook (rs.map PostResult.response ++ r :: rest)).outcome
      = (SendToWebhook e Webhook (r :: rest)).outcome ∧
    (SendToWebhook e Webhook (r :: rest)).posts = 1 ∧
    (SendToWebhook e Webhook (r :: rest)).outcome =
      (match r with
       | PostResult.failure postErr => Outcome.returned (some postErr)
       | PostResult.response resp =>
         if 200 ≤ resp.StatusCode ∧ resp.StatusCode ≤ 204 then Outcome.returned none
         else Outcome.returned (some ⟨"error posting webhook: " ++ resp.Status⟩)) := by
  simp only [SendToWebhook_eq]
  obtain ⟨ho, hp, _⟩ := sendLoop_429_prefix Webhook (json.Marshal e).1 rs (r :: rest) h429
  obtain ⟨ht, hout⟩ := sendLoop_terminal Webhook (json.Marshal e).1 r rest hr
  have h1 : (sendLoop Webhook (json.Marshal e).1 (r :: rest)).posts = 1 := by
    simp [Run.posts, ht, Effect.isPost]
  exact ⟨by rw [hp, h1], ho, h1, hout⟩

/-- C2 at two 429 responses (one asking for a pause, one without headers) and then a 403. -/
theorem C2_retries_until_terminal_witness :
    (SendToWebhook (NewEmbed "T" "D" "U") "https://example.test/hook"
      ([⟨"429 Too Many Requests", 429, [("X-Ratelimit-Remaining", ["0"])]⟩,
        ⟨"429 Too Many Requests", 429, []⟩].map PostResult.response
        ++ PostResult.response ⟨"403 Forbidden", 403, []⟩ :: [])).posts = 2 + 1 ∧
    (SendToWebhook (NewEmbed "T" "D" "U") "https://example.test/hook"
      ([⟨"429 Too Many Requests", 429, [("X-Ratelimit-Remaining", ["0"])]⟩,
        ⟨"429 Too Many Requests", 429, []⟩].map PostResult.response
        ++ PostResult.response ⟨"403 Forbidden", 403, []⟩ :: [])).outcome
      = Outcome.returned (some ⟨"error posting webhook: 403 Forbidden"⟩) := by
  have h := C2_retries_until_terminal (NewEmbed "T" "D" "U") "https://example.test/hook"
    [⟨"429 Too Many Requests", 429, [("X-Ratelimit-Remaining", ["0"])]⟩,
      ⟨"429 Too Many Requests", 429, []⟩]
    (PostResult.response ⟨"403 Forbidden", 403, []⟩) [] (by decide)
    (by intro resp hresp; cases hresp; decide)
  exact ⟨h.1, h.2.1.trans (h.2.2.2.trans (by decide))⟩

/-- C3: if the first response has a status code that is neither 429 nor in 200..204,
SendToWebhook returns the error "error posting webhook: " followed by the response's status
text (so the message contains the status text), and its whole activity is one POST: no
pause, no retry. -/
theorem C3_terminal_http_error (e : Embed) (Webhook : String) (resp : http.Response)
    (rest : List PostResult)
    (h429 : resp.StatusCode ≠ 429)
    (h2xx : ¬ (200 ≤ resp.StatusCode ∧ resp.StatusCode ≤ 204)) :
    (SendToWebhook e Webhook (PostResult.response resp :: rest)).outcome
      = Outcome.returned (some ⟨"error posting webhook: " ++ resp.Status⟩) ∧
    resp.Status.data <:+: ("error posting webhook: " ++ resp.Status).data ∧
    (SendToWebhook e Webhook (PostResult.response resp :: rest)).trace
      = [Effect.Post Webhook "application/json" (json.Marshal e).1] ∧
    (SendToWebhook e Webhook (PostResult.response resp :: rest)).posts = 1 ∧
    (SendToWebhook e Webhook (PostResult.response resp :: rest)).sleeps = 0 := by
  rw [SendToWebhook_eq, sendLoop_other _ _ resp rest h2xx h429]
  refine ⟨rfl, ?_, rfl, rfl, rfl⟩
  rw [String.data_append]
  exact (List.suffix_append _ _).isInfix

/-- C3 at an endpoint that answers 403. -/
theorem C3_terminal_http_error_witness :
    (SendToWebhook (NewEmbed "T" "D" "U") "https://example.test/hook"
        [PostResult.response ⟨"403 Forbidden", 403, []⟩]).outcome
      = Outcome.returned (some ⟨"error posting webhook: 403 Forbidden"⟩) ∧
    (SendToWebhook (NewEmbed "T" "D" "U") "https://example.test/hook"
        [PostResult.response ⟨"403 Forbidden", 403, []⟩]).posts = 1 ∧
    (SendToWebhook (NewEmbed "T" "D" "U") "https://example.test/hook"
        [PostResult.response ⟨"403 Forbidden", 403, []⟩]).sleeps = 0 := by
  have h := C3_terminal_http_error (NewEmbed "T" "D" "U") "https://example.test/hook"
    ⟨"403 Forbidden", 403, []⟩ [] (by decide) (by decide)
  exact ⟨h.1.trans (by decide), h.2.2.2.1, h.2.2.2.2⟩

/-- C6: if the transport fails on a POST attempt, the first or one made after any number
of 429 responses, SendToWebhook returns that same error; the failed POST is the last
action of the run, and whatever the endpoint would have answered afterwards plays no part. -/
theorem C6_transport_failure (e : Embed) (Webhook : String) (rs : List http.Response)
    (postErr : GoError) (rest : List PostResult)
    (h429 : ∀ x ∈ rs, x.StatusCode = 429) :
    (SendToWebhook e Webhook (rs.map PostResult.response ++ PostResult.failure postErr :: rest)).outcome
      = Outcome.returned (some postErr) ∧
    (SendToWebhook e Webhook (rs.map PostResult.response ++ PostResult.failure postErr :: rest)).posts
      = rs.length + 1 ∧
    (SendToWebhook e Webhook (rs.map PostResult.response ++ PostResult.failure postErr :: rest)).trace.getLast?
      = some (Effect.Post Webhook "application/json" (json.Marshal e).1) ∧
    SendToWebhook e Webhook (rs.map PostResult.response ++ PostResult.failure postErr :: rest)
      = SendToWebhook e Webhook (rs.map PostResult.response ++ [PostResult.failure postErr]) := by
  simp only [SendToWebhook_eq]
  obtain ⟨ho, hp, pre, ht⟩ := sendLoop_429_prefix Webhook (json.Marshal e).1 rs
    (PostResult.failure postErr :: rest) h429
  rw [sendLoop_failure] at ho hp ht
  refine ⟨ho, ?_, ?_, sendLoop_failure_rest _ _ rs postErr rest h429⟩
  · rw [hp]; simp [Run.posts, Effect.isPost]
  · rw [ht]; simp

/-- C6 at a transport failure on the second attempt, after one 429. -/
theorem C6_transport_failure_witness :
    (SendToWebhook (NewEmbed "T" "D" "U") "https://example.test/hook"
      ([⟨"429 Too Many Requests", 429, []⟩].map PostResult.response
        ++ PostResult.failure ⟨"dial tcp: connection refused"⟩
        :: [PostResult.response ⟨"200 OK", 200, []⟩])).outcome
      = Outcome.returned (some ⟨"dial tcp: connection refused"⟩) ∧
    (SendToWebhook (NewEmbed "T" "D" "U") "https://example.test/hook"
      ([⟨"429 Too Many Requests", 429, []⟩].map PostResult.response
        ++ PostResult.failure ⟨"dial tcp: connection refused"⟩
        :: [PostResult.response ⟨"200 OK", 200, []⟩])).posts = 1 + 1 := by
  have h := C6_transport_failure (NewEmbed "T" "D" "U") "https://example.test/hook"
    [⟨"429 Too Many Requests", 429, []⟩] ⟨"dial tcp: connection refused"⟩
    [PostResult.response ⟨"200 OK", 200, []⟩] (by decide)
  exact ⟨h.1, h.2.1⟩

/-- C4, the code on the claim's scenario: against an endpoint that answers 429 with
x-ratelimit-remaining = 0 and X-RateLimit-Reset-After = 0.05 once and then 200, SendToWebhook
returns success after exactly two POSTs, but the pause it requests between them is
`time.Sleep(0)`: `time.Duration(sleepTime)` counts nanoseconds and drops the fraction, so
0.05 becomes 0 ns and not the 50 ms of the header; likewise a header of 2 (seconds) gives a
pause of 2 ns and not 2 s. -/
theorem C4_pause_is_truncated_nanoseconds (e : Embed) (Webhook : String) :
    SendToWebhook e Webhook
        [PostResult.response ⟨"429 Too Many Requests", 429,
            [("X-Ratelimit-Remaining", ["0"]), ("X-Ratelimit-Reset-After", ["0.05"])]⟩,
         PostResult.response ⟨"200 OK", 200, []⟩]
      = ⟨[Effect.Post Webhook "application/json" (json.Marshal e).1,
          Effect.Sleep (time.Duration.ns 0),
          Effect.Post Webhook "application/json" (json.Marshal e).1],
         Outcome.returned none⟩ ∧
    time.Duration.ns 0 ≠ time.Duration.ns (time.Second / 20) ∧
    SendToWebhook e Webhook
        [PostResult.response ⟨"429 Too Many Requests", 429,
            [("X-Ratelimit-Remaining", ["0"]), ("X-Ratelimit-Reset-After", ["2"])]⟩,
         PostResult.response ⟨"200 OK", 200, []⟩]
      = ⟨[Effect.Post Webhook "application/json" (json.Marshal e).1,
          Effect.Sleep (time.Duration.ns 2),
          Effect.Post Webhook "application/json" (json.Marshal e).1],
         Outcome.returned none⟩ ∧
    time.Duration.ns 2 ≠ time.Duration.ns (2 * time.Second) := by
  refine ⟨?_, by decide, ?_, by decide⟩
  · rw [SendToWebhook_eq, sendLoop_429_eq _ _ _ _ rfl, sendLoop_ok _ _ _ _ (by decide)]
    have h1 : strconv.Atoi (http.Header.Get
        [("X-Ratelimit-Remaining", ["0"]), ("X-Ratelimit-Reset-After", ["0.05"])]
        "x-ratelimit-remaining") = (0, none) := by decide
    have h2 : time.Duration.ofFloat (strconv.ParseFloat32 (http.Header.Get
        [("X-Ratelimit-Remaining", ["0"]), ("X-Ratelimit-Reset-After", ["0.05"])]
        "X-RateLimit-Reset-After")).1 = time.Duration.ns 0 := by decide
    simp only [h1, h2]
    rfl
  · rw [SendToWebhook_eq, sendLoop_429_eq _ _ _ _ rfl, sendLoop_ok _ _ _ _ (by decide)]
    have h1 : strconv.Atoi (http.Header.Get
        [("X-Ratelimit-Remaining", ["0"]), ("X-Ratelimit-Reset-After", ["2"])]
        "x-ratelimit-remaining") = (0, none) := by decide
    have h2 : time.Duration.ofFloat (strconv.ParseFloat32 (http.Header.Get
        [("X-Ratelimit-Remaining", ["0"]), ("X-Ratelimit-Reset-After", ["2"])]
        "X-RateLimit-Reset-After")).1 = time.Duration.ns 2 := by decide
    simp only [h1, h2]
    rfl

/-- C5, as amended: on a 429 response SendToWebhook requests a pause exactly when
`strconv.Atoi` of the x-ratelimit-remaining header succeeds with a value of at most 1: then
the run is this POST, one `time.Sleep`, and the rest of the run; otherwise it is this POST
and the rest of the run with no pause.  Either way the rest of the run starts with another
POST.  When it pauses and the X-RateLimit-Reset-After header is absent from the map or
`strconv.ParseFloat` rejects it as malformed (a syntax error), the pause is
`time.Sleep(0)`; a well-formed number that `ParseFloat` rejects as out of range is not
covered.  An absent
x-ratelimit-remaining header gives no pause; `Atoi` reads "0", "1" and "2" as 0, 1 and 2 and
rejects "1.5". -/
theorem C5_pause_iff_remaining_le_one (e : Embed) (Webhook : String) (resp : http.Response)
    (rest : List PostResult) (h429 : resp.StatusCode = 429) :
    (((strconv.Atoi (resp.Header.Get "x-ratelimit-remaining")).2 = none ∧
        (strconv.Atoi (resp.Header.Get "x-ratelimit-remaining")).1 ≤ 1) →
      (SendToWebhook e Webhook (PostResult.response resp :: rest)).trace
        = Effect.Post Webhook "application/json" (json.Marshal e).1
          :: Effect.Sleep (time.Duration.ofFloat
              (strconv.ParseFloat32 (resp.Header.Get "X-RateLimit-Reset-After")).1)
          :: (SendToWebhook e Webhook rest).trace) ∧
    (¬ ((strconv.Atoi (resp.Header.Get "x-ratelimit-remaining")).2 = none ∧
        (strconv.Atoi (resp.Header.Get "x-ratelimit-remaining")).1 ≤ 1) →
      (SendToWebhook e Webhook (PostResult.response resp :: rest)).trace
        = Effect.Post Webhook "application/json" (json.Marshal e).1
          :: (SendToWebhook e Webhook rest).trace) ∧
    (SendToWebhook e Webhook rest).trace.head?
      = some (Effect.Post Webhook "application/json" (json.Marshal e).1) ∧
    (SendToWebhook e Webhook (PostResult.response resp :: rest)).outcome
      = (SendToWebhook e Webhook rest).outcome ∧
    ((strconv.ParseFloat32 (resp.Header.Get "X-RateLimit-Reset-After")).2
        = some strconv.NumError.ErrSyntax →
      time.Duration.ofFloat (strconv.ParseFloat32 (resp.Header.Get "X-RateLimit-Reset-After")).1
        = time.Duration.ns 0) ∧
    (resp.Header.lookup "X-Ratelimit-Reset-After" = none →
      time.Duration.ofFloat (strconv.ParseFloat32 (resp.Header.Get "X-RateLimit-Reset-After")).1
        = time.Duration.ns 0) ∧
    (resp.Header.lookup "X-Ratelimit-Remaining" = none →
      (SendToWebhook e Webhook (PostResult.response resp :: rest)).trace
        = Effect.Post Webhook "application/json" (json.Marshal e).1
          :: (SendToWebhook e Webhook rest).trace) ∧
    strconv.Atoi "0" = (0, none) ∧ strconv.Atoi "1" = (1, none) ∧
    strconv.Atoi "2" = (2, none) ∧ (strconv.Atoi "1.5").2 = some strconv.NumError.ErrSyntax := by
  simp only [SendToWebhook_eq]
  rw [sendLoop_429_eq _ _ resp rest h429]
  refine ⟨?_, ?_, ?_, rfl, ?_, ?_, ?_, by decide, by decide, by decide, by decide⟩
  · intro h
    simp only [if_pos h, List.singleton_append]
  · intro h
    simp only [if_neg h, List.nil_append]
  · cases rest with
    | nil => rfl
    | cons r rest =>
      cases r with
      | failure err => rfl
      | response r2 =>
        by_cases h2 : r2.StatusCode ≤ 204 ∧ r2.StatusCode ≥ 200
        · rw [sendLoop, if_pos h2]; rfl
        · by_cases h3 : r2.StatusCode = 429
          · rw [sendLoop_429_eq _ _ r2 rest h3]; rfl
          · rw [sendLoop, if_neg h2, if_neg h3]; rfl
  · intro h
    rw [ParseFloat32_malformed_zero _ h]
    decide
  · intro h
    have hk : textproto.CanonicalMIMEHeaderKey "X-RateLimit-Reset-After"
        = "X-Ratelimit-Reset-After" := by decide
    rw [Header_Get_absent _ _ (by rw [hk]; exact h)]
    decide
  · intro h
    have hk : textproto.CanonicalMIMEHeaderKey "x-ratelimit-remaining"
        = "X-Ratelimit-Remaining" := by decide
    rw [Header_Get_absent _ _ (by rw [hk]; exact h)]
    have hno : ¬ ((strconv.Atoi "").2 = none ∧ (strconv.Atoi "").1 ≤ 1) := by decide
    simp only [if_neg hno, List.nil_append]

/-- C5 at a 429 whose x-ratelimit-remaining is 1 and whose reset-after header is absent:
a pause of zero is requested and another POST follows. -/
theorem C5_pause_iff_remaining_le_one_witness :
    (SendToWebhook (NewEmbed "T" "D" "U") "https://example.test/hook"
      (PostResult.response ⟨"429 Too Many Requests", 429, [("X-Ratelimit-Remaining", ["1"])]⟩
        :: [PostResult.response ⟨"200 OK", 200, []⟩])).trace
      = Effect.Post "https://example.test/hook" "application/json"
          (json.Marshal (NewEmbed "T" "D" "U")).1
        :: Effect.Sleep (time.Duration.ofFloat (strconv.ParseFloat32 (http.Header.Get
            [("X-Ratelimit-Remaining", ["1"])] "X-RateLimit-Reset-After")).1)
        :: (SendToWebhook (NewEmbed "T" "D" "U") "https://example.test/hook"
            [PostResult.response ⟨"200 OK", 200, []⟩]).trace ∧
    time.Duration.ofFloat (strconv.ParseFloat32 (http.Header.Get
        [("X-Ratelimit-Remaining", ["1"])] "X-RateLimit-Reset-After")).1 = time.Duration.ns 0 ∧
    (SendToWebhook (NewEmbed "T" "D" "U") "https://example.test/hook"
        [PostResult.response ⟨"200 OK", 200, []⟩]).trace.head?
      = some (Effect.Post "https://example.test/hook" "application/json"
          (json.Marshal (NewEmbed "T" "D" "U")).1) := by
  have h := C5_pause_iff_remaining_le_one (NewEmbed "T" "D" "U") "https://example.test/hook"
    ⟨"429 Too Many Requests", 429, [("X-Ratelimit-Remaining", ["1"])]⟩
    [PostResult.response ⟨"200 OK", 200, []⟩] rfl
  exact ⟨h.1 (by decide), h.2.2.2.2.2.1 (by decide), h.2.2.1⟩

/-- C5 as stated fails at a reset-after header of "1e40": `strconv.ParseFloat` rejects it
(out of range for a float32, so the header is unparseable), returns +Inf beside the error,
the error is discarded, and the pause requested is the conversion of +Inf to a
`time.Duration`, which is not zero but implementation-dependent. -/
theorem C5_counterexample :
    strconv.Atoi (http.Header.Get
        [("X-Ratelimit-Remaining", ["0"]), ("X-Ratelimit-Reset-After", ["1e40"])]
        "x-ratelimit-remaining") = (0, none) ∧
    strconv.ParseFloat32 (http.Header.Get
        [("X-Ratelimit-Remaining", ["0"]), ("X-Ratelimit-Reset-After", ["1e40"])]
        "X-RateLimit-Reset-After")
      = (strconv.Float64.inf false, some strconv.NumError.ErrRange) ∧
    (SendToWebhook (NewEmbed "T" "D" "U") "https://example.test/hook"
        [PostResult.response ⟨"429 Too Many Requests", 429,
            [("X-Ratelimit-Remaining", ["0"]), ("X-Ratelimit-Reset-After", ["1e40"])]⟩,
         PostResult.response ⟨"200 OK", 200, []⟩]).trace
      = [Effect.Post "https://example.test/hook" "application/json"
            (json.Marshal (NewEmbed "T" "D" "U")).1,
          Effect.Sleep time.Duration.unspecified,
          Effect.Post "https://example.test/hook" "application/json"
            (json.Marshal (NewEmbed "T" "D" "U")).1] ∧
    time.Duration.unspecified ≠ time.Duration.ns 0 := by
  have h1 : strconv.Atoi (http.Header.Get
      [("X-Ratelimit-Remaining", ["0"]), ("X-Ratelimit-Reset-After", ["1e40"])]
      "x-ratelimit-remaining") = (0, none) := by decide
  have h2 : strconv.ParseFloat32 (http.Header.Get
      [("X-Ratelimit-Remaining", ["0"]), ("X-Ratelimit-Reset-After", ["1e40"])]
      "X-RateLimit-Reset-After")
        = (strconv.Float64.inf false, some strconv.NumError.ErrRange) := by
    set_option maxRecDepth 8192 in decide
  refine ⟨h1, h2, ?_, by decide⟩
  rw [SendToWebhook_eq, sendLoop_429_eq _ _ _ _ rfl, sendLoop_ok _ _ _ _ (by decide)]
  simp only [h1, h2]
  rfl

/-- C7: NewEmbed(T, D, U) returns a payload whose content-block sequence has exactly one
element, with title T, description D and link U; the block's author, timestamp, colour,
fields, thumbnail, image and footer, and the payload's username, avatar URL and content,
are at their zero values. -/
theorem C7_NewEmbed (T D U : String) :
    ∃ emb : EmbedElement,
      (NewEmbed T D U).Embeds = Slice.mk [emb] ∧ (NewEmbed T D U).Embeds.len = 1 ∧
      emb.Title = T ∧ emb.Description = D ∧ emb.URL = U ∧
      emb.Author = ⟨"", "", ""⟩ ∧ emb.Timestamp = "" ∧ emb.Color = 0 ∧
      emb.Fields = Slice.nil ∧ emb.Fields.len = 0 ∧
      emb.Thumbnail = ⟨""⟩ ∧ emb.Image = ⟨""⟩ ∧ emb.Footer = ⟨"", ""⟩ ∧
      (NewEmbed T D U).Username = "" ∧ (NewEmbed T D U).AvatarURL = "" ∧
      (NewEmbed T D U).Content = "" :=
  ⟨{ Title := T, Description := D, URL := U }, rfl, rfl, rfl, rfl, rfl, rfl, rfl, rfl, rfl, rfl,
    rfl, rfl, rfl, rfl, rfl, rfl⟩

/-- C8, as amended: on a payload with a content block at index 0, calling AddField once per
triple in order returns no error each time, and the block's field sequence becomes the
fields it already had followed by the N triples in call order, each with its name, value
and inline flag; its length grows by N.  When the block had no field before, the length
is N and the i-th entry is the i-th triple. -/
theorem C8_AddField_appends (e : Embed) (b : EmbedElement) (ts : List (String × String × Bool))
    (hb : e.first = some b) :
    (addFields e ts).2 = List.replicate ts.length none ∧
    ∃ b1 : EmbedElement, (addFields e ts).1.first = some b1 ∧
      b1.Fields.toList = b.Fields.toList ++ ts.map Field.ofTriple ∧
      b1.Fields.len = b.Fields.len + ts.length ∧
      (b.Fields.len = 0 →
        b1.Fields.len = ts.length ∧
        ∀ i : Nat, i < ts.length → b1.Fields.toList[i]? = (ts[i]?).map Field.ofTriple) := by
  obtain ⟨h1, b1, h2, h3⟩ := addFields_first ts e b hb
  refine ⟨h1, b1, h2, h3, ?_, ?_⟩
  · simp [Slice.len, h3]
  · intro h0
    have hnil : b.Fields.toList = [] := List.length_eq_zero.mp h0
    refine ⟨by simp [Slice.len, h3, hnil], ?_⟩
    intro i _
    rw [h3, hnil, List.nil_append, List.getElem?_map]

/-- C8 as amended, at NewEmbed followed by three AddField calls. -/
theorem C8_AddField_appends_witness :
    (NewEmbed "T" "D" "U").first = some { Title := "T", Description := "D", URL := "U" } ∧
    (addFields (NewEmbed "T" "D" "U")
        [("a", "1", true), ("b", "2", false), ("a", "1", true)]).2 = [none, none, none] ∧
    (((addFields (NewEmbed "T" "D" "U")
        [("a", "1", true), ("b", "2", false), ("a", "1", true)]).1.first).map
          (fun b1 => b1.Fields.toList))
      = some [⟨"a", "1", true⟩, ⟨"b", "2", false⟩, ⟨"a", "1", true⟩] := by
  obtain ⟨h1, b1, h2, h3, _⟩ := C8_AddField_appends (NewEmbed "T" "D" "U")
    { Title := "T", Description := "D", URL := "U" }
    [("a", "1", true), ("b", "2", false), ("a", "1", true)] rfl
  refine ⟨rfl, h1, ?_⟩
  rw [h2, Option.map_some', h3]
  rfl

/-- C8 as stated fails on a payload whose first block already has a field: after one
AddField call (N = 1) the field sequence has length 2, with the new triple at index 1. -/
theorem C8_counterexample :
    1 ≤ (AddField (NewEmbed "T" "D" "U") "x" "y" false).1.Embeds.len ∧
    (addFields (AddField (NewEmbed "T" "D" "U") "x" "y" false).1 [("a", "b", true)]).2 = [none] ∧
    ((addFields (AddField (NewEmbed "T" "D" "U") "x" "y" false).1 [("a", "b", true)]).1.first).map
        (fun b1 => b1.Fields.toList) = some [⟨"x", "y", false⟩, ⟨"a", "b", true⟩] ∧
    ¬ (((addFields (AddField (NewEmbed "T" "D" "U") "x" "y" false).1 [("a", "b", true)]).1.first).map
        (fun b1 => b1.Fields.len) = some [("a", "b", true)].length) := by
  decide

/-- C9: on a payload with a content block at index 0, SetColor("#1A2B3C"),
SetColor("0x1A2B3C") and SetColor("1A2B3C") each return no error and store 1715004 as that
block's colour; and for every string h of hexadecimal digits, SetColor("#"+h),
SetColor("0x"+h) and SetColor("0X"+h) do exactly what SetColor(h) does, which, when h is
accepted, is to store the value of h. -/
theorem C9_SetColor_marks (e : Embed) (b : EmbedElement) (hb : e.first = some b) :
    SetColor e "#1A2B3C" = Call.ret (e.withColor 1715004) none ∧
    SetColor e "0x1A2B3C" = Call.ret (e.withColor 1715004) none ∧
    SetColor e "1A2B3C" = Call.ret (e.withColor 1715004) none ∧
    (e.withColor 1715004).first = some { b with Color := 1715004 } ∧
    ∀ h : String, (∀ c ∈ h.data, isHexDigit c = true) →
      SetColor e ("#" ++ h) = SetColor e h ∧
      SetColor e ("0x" ++ h) = SetColor e h ∧
      SetColor e ("0X" ++ h) = SetColor e h ∧
      ∀ v : Int, hexInt64 h.data = some v →
        SetColor e h = Call.ret (e.withColor v) none ∧
        (e.withColor v).first = some { b with Color := v } := by
  have hlen : ¬ e.Embeds.len = 0 := fun h => Slice.len_pos_of_head _ _ hb (by omega)
  have p1 : strconv.ParseInt (stripColor "#1A2B3C") 16 64 = (1715004, none) := by decide
  have p2 : strconv.ParseInt (stripColor "0x1A2B3C") 16 64 = (1715004, none) := by decide
  have p3 : strconv.ParseInt (stripColor "1A2B3C") 16 64 = (1715004, none) := by decide
  refine ⟨?_, ?_, ?_, withColor_first e b hb _, ?_⟩
  · rw [SetColor_strip, p1]; simp only [hlen, if_false]
  · rw [SetColor_strip, p2]; simp only [hlen, if_false]
  · rw [SetColor_strip, p3]; simp only [hlen, if_false]
  · intro h hh
    obtain ⟨s0, s1, s2, s3⟩ := stripColor_marks h
      (fun hm => (isHexDigit_ne _ (hh _ hm)).1 rfl)
      (fun hm => (isHexDigit_ne _ (hh _ hm)).2.1 rfl)
      (fun hm => (isHexDigit_ne _ (hh _ hm)).2.2 rfl)
    refine ⟨?_, ?_, ?_, ?_⟩
    · rw [SetColor_strip, SetColor_strip, s1, s0]
    · rw [SetColor_strip, SetColor_strip, s2, s0]
    · rw [SetColor_strip, SetColor_strip, s3, s0]
    · intro v hv
      refine ⟨(SetColor_first e b hb h).1 v ?_, withColor_first e b hb v⟩
      rw [s0]; exact hv

/-- C9 on NewEmbed("T", "D", "U"), with h = "ff00FF". -/
theorem C9_SetColor_marks_witness :
    (NewEmbed "T" "D" "U").first = some { Title := "T", Description := "D", URL := "U" } ∧
    SetColor (NewEmbed "T" "D" "U") "#1A2B3C"
      = Call.ret ((NewEmbed "T" "D" "U").withColor 1715004) none ∧
    SetColor (NewEmbed "T" "D" "U") ("0X" ++ "ff00FF") = SetColor (NewEmbed "T" "D" "U") "ff00FF" ∧
    SetColor (NewEmbed "T" "D" "U") "ff00FF"
      = Call.ret ((NewEmbed "T" "D" "U").withColor 16711935) none := by
  have h := C9_SetColor_marks (NewEmbed "T" "D" "U")
    { Title := "T", Description := "D", URL := "U" } rfl
  have h2 := h.2.2.2.2 "ff00FF" (by decide)
  exact ⟨rfl, h.1, h2.2.2.1, (h2.2.2.2 16711935 (by decide)).1⟩

/-- C10, the code on "12#34": with at most one leading "0x", "0X" or "#" removed the
string is still "12#34", which is not a base-16 integer, so it is an invalid hex code and
is to be rejected; yet SetColor on NewEmbed("T", "D", "U") takes the "#" out of the middle,
parses "1234", returns no error and stores 0x1234 = 4660 as the colour. -/
theorem C10_SetColor_accepts_inner_mark :
    leadingRemainders "12#34" = ["12#34"] ∧
    leadingAccepts "12#34" = false ∧
    stripColor "12#34" = "1234" ∧
    SetColor (NewEmbed "T" "D" "U") "12#34"
      = Call.ret ((NewEmbed "T" "D" "U").withColor 4660) none ∧
    ((NewEmbed "T" "D" "U").withColor 4660).first
      = some { Title := "T", Description := "D", URL := "U", Color := 4660 } := by
  decide

/-- C11: for every payload, with or without content blocks, and every string s, if
SetColor(s) returns an error then the payload after the call is the payload before it,
stored colour included; this is what happens whenever s, once stripped, is not a base-16
integer, for example for "zzzz". -/
theorem C11_SetColor_rejects_unchanged (e : Embed) (s : String) :
    (∀ (e1 : Embed) (err : GoError), SetColor e s = Call.ret e1 (some err) →
      e1 = e ∧ e1.first.map (fun b => b.Color) = e.first.map (fun b => b.Color) ∧
      err = ⟨"invalid hex code passed"⟩) ∧
    (hexInt64 (stripColor s).data = none →
      SetColor e s = Call.ret e (some ⟨"invalid hex code passed"⟩)) ∧
    SetColor e "zzzz" = Call.ret e (some ⟨"invalid hex code passed"⟩) := by
  refine ⟨?_, SetColor_rejects e s, SetColor_rejects e "zzzz" (by decide)⟩
  intro e1 err h
  rcases SetColor_cases e s with h1 | ⟨_, h1⟩ | ⟨_, v, h1⟩
  · rw [h1] at h
    simp only [Call.ret.injEq, Option.some.injEq] at h
    obtain ⟨he, herr⟩ := h
    subst he herr
    exact ⟨rfl, rfl, rfl⟩
  · rw [h1] at h; exact absurd h (by simp)
  · rw [h1] at h; simp at h

/-- C11 on a payload that already stores a colour. -/
theorem C11_SetColor_rejects_unchanged_witness :
    hexInt64 (stripColor "zzzz").data = none ∧
    SetColor ((NewEmbed "T" "D" "U").withColor 255) "zzzz"
      = Call.ret ((NewEmbed "T" "D" "U").withColor 255) (some ⟨"invalid hex code passed"⟩) :=
  ⟨by decide,
    (C11_SetColor_rejects_unchanged ((NewEmbed "T" "D" "U").withColor 255) "zzzz").2.1
      (by decide)⟩

/-- C12, the code on the claim's input: on a payload whose content-block sequence is
empty (the zero-value Embed, or an empty non-nil slice), SetColor("1A2B3C") does not return
an error: the string parses, the assignment to `e.Embeds[0].Color` is reached, and the call
panics with an index out of range; so does every call whose stripped string is a base-16
integer.  Only a string that does not parse gets the error back. -/
theorem C12_SetColor_empty_panics :
    SetColor {} "1A2B3C" = Call.panicked "index out of range [0] with length 0" ∧
    SetColor { Embeds := Slice.mk [] } "1A2B3C"
      = Call.panicked "index out of range [0] with length 0" ∧
    (∀ (e : Embed) (s : String) (v : Int), e.Embeds.len = 0 →
      hexInt64 (stripColor s).data = some v →
      SetColor e s = Call.panicked "index out of range [0] with length 0") ∧
    (SetThumbnail {} "u").2 = some errNoEmbedElement :=
  ⟨by decide, by decide, fun e s v hlen h => SetColor_panics e s v hlen h, rfl⟩

/-- C13: each of SetThumbnail, SetImage, SetFooter, SetTimestamp and AddField, for all
arguments, returns an error if and only if the payload's content-block sequence is empty,
and when it returns an error the payload after the call is the payload before it. -/
theorem C13_guarded_mutators (e : Embed) :
    (∀ URL : String,
      ((SetThumbnail e URL).2 ≠ none ↔ e.Embeds.len = 0) ∧
      ((SetThumbnail e URL).2 ≠ none → (SetThumbnail e URL) = (e, some errNoEmbedElement))) ∧
    (∀ URL : String,
      ((SetImage e URL).2 ≠ none ↔ e.Embeds.len = 0) ∧
      ((SetImage e URL).2 ≠ none → (SetImage e URL) = (e, some errNoEmbedElement))) ∧
    (∀ Text IconURL : String,
      ((SetFooter e Text IconURL).2 ≠ none ↔ e.Embeds.len = 0) ∧
      ((SetFooter e Text IconURL).2 ≠ none →
        (SetFooter e Text IconURL) = (e, some errNoEmbedElement))) ∧
    (∀ now : String,
      ((SetTimestamp e now).2 ≠ none ↔ e.Embeds.len = 0) ∧
      ((SetTimestamp e now).2 ≠ none → (SetTimestamp e now) = (e, some errNoEmbedElement))) ∧
    (∀ (Name Value : String) (i : Bool),
      ((AddField e Name Value i).2 ≠ none ↔ e.Embeds.len = 0) ∧
      ((AddField e Name Value i).2 ≠ none →
        (AddField e Name Value i) = (e, some errNoEmbedElement))) := by
  by_cases hlen : e.Embeds.len < 1
  · have h0 : e.Embeds.len = 0 := by omega
    refine ⟨fun _ => ?_, fun _ => ?_, fun _ _ => ?_, fun _ => ?_, fun _ _ _ => ?_⟩
    · simp [SetThumbnail, hlen, h0]
    · simp [SetImage, hlen, h0]
    · simp [SetFooter, hlen, h0]
    · simp [SetTimestamp, hlen, h0]
    · simp [AddField, hlen, h0]
  · have h0 : ¬ e.Embeds.len = 0 := by omega
    refine ⟨fun _ => ?_, fun _ => ?_, fun _ _ => ?_, fun _ => ?_, fun _ _ _ => ?_⟩
    · simp [SetThumbnail, hlen, h0]
    · simp [SetImage, hlen, h0]
    · simp [SetFooter, hlen, h0]
    · simp [SetTimestamp, hlen, h0]
    · simp [AddField, hlen, h0]

/-- C13 on the zero-value Embed with a user name set: SetFooter returns the error and the
payload, user name included, is as before. -/
theorem C13_guarded_mutators_witness :
    (SetFooter (SetUser {} "bot" "avatar") "text" "icon").2 ≠ none ∧
    SetFooter (SetUser {} "bot" "avatar") "text" "icon"
      = (SetUser {} "bot" "avatar", some errNoEmbedElement) :=
  ⟨by decide,
    ((C13_guarded_mutators (SetUser {} "bot" "avatar")).2.2.1 "text" "icon").2 (by decide)⟩

/-- C14: on a payload whose content blocks are b followed by rest, each of SetThumbnail,
SetImage, SetFooter, SetTimestamp and AddField returns no error and leaves the payload as
it was except for block 0, which is b with only the thumbnail, image, footer, timestamp or
field sequence replaced; a SetColor call that returns no error leaves the payload as it was
except for block 0, which is b with only the colour replaced.  The blocks of rest, their
number, and the username, avatar URL and content stay as they were. -/
theorem C14_mutators_frame (e : Embed) (b : EmbedElement) (rest : List EmbedElement)
    (hb : e.Embeds.toList = b :: rest) :
    (∀ URL : String, SetThumbnail e URL
      = ({ e with Embeds := Slice.mk ({ b with Thumbnail := ⟨URL⟩ } :: rest) }, none)) ∧
    (∀ URL : String, SetImage e URL
      = ({ e with Embeds := Slice.mk ({ b with Image := ⟨URL⟩ } :: rest) }, none)) ∧
    (∀ Text IconURL : String, SetFooter e Text IconURL
      = ({ e with Embeds := Slice.mk ({ b with Footer := ⟨Text, IconURL⟩ } :: rest) }, none)) ∧
    (∀ now : String, SetTimestamp e now
      = ({ e with Embeds := Slice.mk ({ b with Timestamp := now } :: rest) }, none)) ∧
    (∀ (Name Value : String) (i : Bool), AddField e Name Value i
      = ({ e with Embeds :=
            Slice.mk ({ b with Fields := Slice.mk (b.Fields.toList ++ [⟨Name, Value, i⟩]) } :: rest) },
          none)) ∧
    (∀ (s : String) (e1 : Embed), SetColor e s = Call.ret e1 none →
      ∃ v : Int, e1 = { e with Embeds := Slice.mk ({ b with Color := v } :: rest) }) := by
  have hE : e.Embeds = Slice.mk (b :: rest) := Slice.eq_mk_of_toList _ _ _ hb
  obtain ⟨h1, h0⟩ := Slice.len_of_toList _ _ _ hb
  refine ⟨fun _ => ?_, fun _ => ?_, fun _ _ => ?_, fun _ => ?_, fun _ _ _ => ?_, ?_⟩
  · rw [SetThumbnail, if_neg h1, hE]; rfl
  · rw [SetImage, if_neg h1, hE]; rfl
  · rw [SetFooter, if_neg h1, hE]; rfl
  · rw [SetTimestamp, if_neg h1, hE]; rfl
  · rw [AddField, if_neg h1, hE]; rfl
  · intro s e1 h
    rcases SetColor_cases e s with hc | ⟨hl, _⟩ | ⟨_, v, hc⟩
    · rw [hc] at h; simp at h
    · exact absurd hl h0
    · rw [hc] at h
      simp only [Call.ret.injEq, and_true] at h
      refine ⟨v, ?_⟩
      rw [← h, Embed.withColor, hE]
      rfl

/-- C14 on a payload with two content blocks and a user name: SetThumbnail and AddField
touch block 0 only. -/
theorem C14_mutators_frame_witness :
    SetThumbnail { Username := "bot", Embeds := Slice.mk [{ Title := "a" }, { Title := "b" }] } "u"
      = ({ Username := "bot",
           Embeds := Slice.mk [{ Title := "a", Thumbnail := ⟨"u"⟩ }, { Title := "b" }] }, none) ∧
    AddField { Username := "bot", Embeds := Slice.mk [{ Title := "a" }, { Title := "b" }] }
        "n" "v" true
      = ({ Username := "bot",
           Embeds := Slice.mk
            [{ Title := "a", Fields := Slice.mk [⟨"n", "v", true⟩] }, { Title := "b" }] }, none) := by
  have h := C14_mutators_frame
    { Username := "bot", Embeds := Slice.mk [{ Title := "a" }, { Title := "b" }] }
    { Title := "a" } [{ Title := "b" }] rfl
  exact ⟨h.1 "u", h.2.2.2.2.1 "n" "v" true⟩

/-- C15: SetAuthor(name, link, icon) always returns.  On a payload with an empty
content-block sequence the sequence becomes one block whose author is (name, link, icon)
and whose other attributes are zero values; on a payload whose blocks are b followed by
rest, block 0 becomes b with only the author replaced.  In both cases the username, avatar
URL and content stay as they were, and in the second so do rest and the number of blocks. -/
theorem C15_SetAuthor (e : Embed) (Name URL IconURL : String) :
    (e.Embeds.len = 0 →
      ∃ emb : EmbedElement,
        SetAuthor e Name URL IconURL = { e with Embeds := Slice.mk [emb] } ∧
        emb.Author = ⟨Name, URL, IconURL⟩ ∧ emb.Title = "" ∧ emb.URL = "" ∧
        emb.Description = "" ∧ emb.Timestamp = "" ∧ emb.Color = 0 ∧ emb.Fields = Slice.nil ∧
        emb.Thumbnail = ⟨""⟩ ∧ emb.Image = ⟨""⟩ ∧ emb.Footer = ⟨"", ""⟩) ∧
    (∀ (b : EmbedElement) (rest : List EmbedElement), e.Embeds.toList = b :: rest →
      SetAuthor e Name URL IconURL
        = { e with Embeds := Slice.mk ({ b with Author := ⟨Name, URL, IconURL⟩ } :: rest) } ∧
      (SetAuthor e Name URL IconURL).Embeds.len = e.Embeds.len) ∧
    (e.Embeds.len = 0 ∨ ∃ (b : EmbedElement) (rest : List EmbedElement),
      e.Embeds.toList = b :: rest) := by
  refine ⟨fun hlen => ?_, fun b rest hb => ?_, ?_⟩
  · refine ⟨{ Author := ⟨Name, URL, IconURL⟩ }, ?_, rfl, rfl, rfl, rfl, rfl, rfl, rfl, rfl, rfl,
      rfl⟩
    have hl : e.Embeds.toList = [] := List.length_eq_zero.mp hlen
    rw [SetAuthor, if_pos hlen]
    simp only [Slice.append, hl, List.nil_append]
  · have hE : e.Embeds = Slice.mk (b :: rest) := Slice.eq_mk_of_toList _ _ _ hb
    obtain ⟨_, h0⟩ := Slice.len_of_toList _ _ _ hb
    have h1 : SetAuthor e Name URL IconURL
        = { e with Embeds := Slice.mk ({ b with Author := ⟨Name, URL, IconURL⟩ } :: rest) } := by
      rw [SetAuthor, if_neg h0, hE]; rfl
    refine ⟨h1, ?_⟩
    rw [h1, hE]; rfl
  · cases hl : e.Embeds.toList with
    | nil => exact Or.inl (by simp [Slice.len, hl])
    | cons b rest => exact Or.inr ⟨b, rest, rfl⟩

/-- C15 on the zero-value Embed and on NewEmbed("T", "D", "U"). -/
theorem C15_SetAuthor_witness :
    SetAuthor {} "n" "l" "i" = { Embeds := Slice.mk [{ Author := ⟨"n", "l", "i"⟩ }] } ∧
    SetAuthor (NewEmbed "T" "D" "U") "n" "l" "i"
      = { Embeds := Slice.mk
            [{ Author := ⟨"n", "l", "i"⟩, Title := "T", Description := "D", URL := "U" }] } := by
  obtain ⟨emb, h1, h2⟩ := (C15_SetAuthor {} "n" "l" "i").1 rfl
  exact ⟨by rw [h1]; cases emb; simp_all,
    ((C15_SetAuthor (NewEmbed "T" "D" "U") "n" "l" "i").2.1
      { Title := "T", Description := "D", URL := "U" } [] rfl).1⟩

/-- C17: a SendToWebhook call is the retry loop run on the one serialization
`json.Marshal(e)` made before the loop starts (the encoder returns no error); the first
action is a POST, and every POST of the call, the first and each retry, goes to the same
URL with content type application/json and carries that serialization as its body.  The
call only reads the payload: the run is a function of it and leaves no new payload. -/
theorem C17_same_body_every_post (e : Embed) (Webhook : String) (script : List PostResult) :
    (json.Marshal e).2 = none ∧
    SendToWebhook e Webhook script = sendLoop Webhook (json.Marshal e).1 script ∧
    (SendToWebhook e Webhook script).trace.head?
      = some (Effect.Post Webhook "application/json" (json.Marshal e).1) ∧
    (∀ x ∈ (SendToWebhook e Webhook script).trace, x.isPost = true →
      x = Effect.Post Webhook "application/json" (json.Marshal e).1) ∧
    (∀ url contentType body : String,
      Effect.Post url contentType body ∈ (SendToWebhook e Webhook script).trace →
      url = Webhook ∧ contentType = "application/json" ∧ body = (json.Marshal e).1) := by
  obtain ⟨hh, hall⟩ := sendLoop_actions Webhook (json.Marshal e).1 script
  refine ⟨rfl, rfl, hh, ?_, ?_⟩
  · intro x hx hp
    rcases hall x hx with h | h
    · exact h
    · cases x <;> simp [Effect.isPost, Effect.isSleep] at hp h
  · intro url ct body hx
    rcases hall _ hx with h | h
    · simp only [Effect.Post.injEq] at h
      exact h
    · simp [Effect.isSleep] at h

/-- C18: every payload reached from NewEmbed(T, D, U) by a finite sequence of calls to
SetUser, SetAuthor, SetColor, SetThumbnail, SetImage, SetFooter, SetTimestamp and AddField,
with any arguments and whether each call returns an error or not, is reached without a
panic and has exactly one content block; on it SetThumbnail, SetImage, SetFooter,
SetTimestamp and AddField return no error, SetColor returns (its index is in range), and
SetAuthor leaves one block. -/
theorem C18_reachable_one_block (T D U : String) (ops : List Op) :
    ∃ e1 : Embed, calls (NewEmbed T D U) ops = some e1 ∧ e1.Embeds.len = 1 ∧
      (∀ URL : String, (SetThumbnail e1 URL).2 = none) ∧
      (∀ URL : String, (SetImage e1 URL).2 = none) ∧
      (∀ Text IconURL : String, (SetFooter e1 Text IconURL).2 = none) ∧
      (∀ now : String, (SetTimestamp e1 now).2 = none) ∧
      (∀ (Name Value : String) (i : Bool), (AddField e1 Name Value i).2 = none) ∧
      (∀ s : String, ∃ (e2 : Embed) (err : Option GoError), SetColor e1 s = Call.ret e2 err) ∧
      (∀ Name URL IconURL : String, (SetAuthor e1 Name URL IconURL).Embeds.len = 1) := by
  obtain ⟨e1, h1, h2⟩ := calls_one_block ops (NewEmbed T D U) rfl
  have hlt : ¬ e1.Embeds.len < 1 := by omega
  refine ⟨e1, h1, h2, fun _ => ?_, fun _ => ?_, fun _ _ => ?_, fun _ => ?_, fun _ _ _ => ?_,
    fun s => ?_, fun n l i => ?_⟩
  · rw [SetThumbnail, if_neg hlt]
  · rw [SetImage, if_neg hlt]
  · rw [SetFooter, if_neg hlt]
  · rw [SetTimestamp, if_neg hlt]
  · rw [AddField, if_neg hlt]
  · obtain ⟨e2, err, hc, _⟩ := call_one_block e1 (Op.SetColor s) h2
    exact ⟨e2, err, hc⟩
  · obtain ⟨e2, err, hc, hl⟩ := call_one_block e1 (Op.SetAuthor n l i) h2
    simp only [Op.call, Call.ret.injEq] at hc
    rw [hc.1]
    exact hl

/-- C16, as amended: for every payload the body that SendToWebhook posts is the
serialization, an object whose last member has the key "embeds", never left out.  Its
value is a JSON array whenever the content-block sequence is a non-nil slice: the encoded
blocks between brackets, which covers every payload with at least one content block, and
`[]` for an empty non-nil slice.  For the nil sequence of the zero-value Embed the value is
`null`. -/
theorem C16_embeds_member (e : Embed) (Webhook : String) (script : List PostResult) :
    (SendToWebhook e Webhook script).trace.head?
      = some (Effect.Post Webhook "application/json" (json.Marshal e).1) ∧
    (∃ pre : String, (json.Marshal e).1
      = "\x7b" ++ pre ++ "\"embeds\":" ++ json.encodeSlice json.encodeEmbedElement e.Embeds
        ++ "\x7d") ∧
    (∀ xs : List EmbedElement, e.Embeds = Slice.mk xs →
      json.encodeSlice json.encodeEmbedElement e.Embeds
        = "[" ++ ",".intercalate (xs.map json.encodeEmbedElement) ++ "]") ∧
    (e.Embeds = Slice.mk [] → json.encodeSlice json.encodeEmbedElement e.Embeds = "[]") ∧
    (1 ≤ e.Embeds.len → ∃ xs : List EmbedElement, e.Embeds = Slice.mk xs ∧ xs ≠ []) ∧
    (e.Embeds = Slice.nil → json.encodeSlice json.encodeEmbedElement e.Embeds = "null") := by
  refine ⟨(sendLoop_actions Webhook (json.Marshal e).1 script).1, encodeEmbed_shape e,
    fun xs h => by rw [h]; rfl, fun h => by rw [h]; rfl, fun h => ?_, fun h => by rw [h]; rfl⟩
  cases hE : e.Embeds with
  | nil => rw [hE] at h; simp [Slice.len, Slice.toList] at h
  | mk xs =>
    refine ⟨xs, rfl, ?_⟩
    rintro rfl
    rw [hE] at h
    simp [Slice.len, Slice.toList] at h

/-- C16 as amended, on NewEmbed("T", "D", "U"): the value of "embeds" is an array of one
encoded block. -/
theorem C16_embeds_member_witness :
    (NewEmbed "T" "D" "U").Embeds = Slice.mk [{ Title := "T", Description := "D", URL := "U" }] ∧
    json.encodeSlice json.encodeEmbedElement (NewEmbed "T" "D" "U").Embeds
      = "[" ++ ",".intercalate
          ([({ Title := "T", Description := "D", URL := "U" } : EmbedElement)].map
            json.encodeEmbedElement) ++ "]" :=
  ⟨rfl, (C16_embeds_member (NewEmbed "T" "D" "U") "https://example.test/hook" []).2.2.1
    [{ Title := "T", Description := "D", URL := "U" }] rfl⟩

/-- C16 as stated fails on the zero-value Embed: its content-block sequence is the nil
slice, and the body SendToWebhook posts is the object with "embeds" set to `null`, not to
the empty array. -/
theorem C16_counterexample :
    ({} : Embed).Embeds.len = 0 ∧
    (json.Marshal {}).1 = "\x7b\"embeds\":null\x7d" ∧
    (SendToWebhook {} "https://example.test/hook" [PostResult.response ⟨"204 No Content", 204, []⟩]).trace
      = [Effect.Post "https://example.test/hook" "application/json" "\x7b\"embeds\":null\x7d"] ∧
    (json.Marshal {}).1 ≠ "\x7b\"embeds\":[]\x7d" := by
  decide

end godiscord



